import Mathlib

/-!
# Verification of the MSFS unit-test framework's renderer and mocks

Shallow embedding, in Lean 4, of the parts of the repository that the
frozen claims are about:

* the reactive value cell `Subject` (src/src/mocks/SDKAdapter.ts),
* the SimVar mock's access log (SimVarMock, shipped next to jsx.d.ts),
* the tree builder's children normalization (`FSComponent.buildComponent`,
  src/src/mocks/MSFSGlobals.ts and SDKAdapter.ts),
* the mount engine's adoption/cloning policy (`adoptOrCloneNode`,
  `recreateNodeInDocument`),
* the two-phase reference-reconciliation engine
  (`ComponentTestHelper.renderComponent` Phase 1 and `reconcileRefs`
  Phase 2, test-utils file `part_001`).

Dynamic JavaScript values are modelled with explicit inductive types;
DOM nodes carry a numeric identity (`nid`) standing for JavaScript
object identity; mutation of shared `ref.instance` cells is modelled by
an explicit store threaded through the algorithms.  Callback invocation
is modelled by traces (lists of invocation records), and exceptions by
explicit aborted-iteration results.  Recursion through the VNode tree in
`reconcileRefs` uses an explicit fuel argument (the source recursion is
bounded by tree depth; every theorem below either holds for all fuel or
is evaluated at a fuel larger than the relevant depth).
-/

/-! ## String helpers (ASCII scope, mirroring the JS operations used) -/

/-- `listIsPre p l` : `p` is a prefix of `l` (char-by-char `String.prototype.startsWith`). -/
def listIsPre : List Char → List Char → Bool
  | [], _ => true
  | _ :: _, [] => false
  | a :: as, b :: bs => a == b && listIsPre as bs

/-- `strStarts s p` : JS `s.startsWith(p)`. -/
def strStarts (s pre : String) : Bool := listIsPre pre.data s.data

/-- Does `t` contain `p` as a contiguous substring (JS `String.prototype.includes`)? -/
def listHasSub (p : List Char) : List Char → Bool
  | [] => p.isEmpty
  | c :: rest => listIsPre p (c :: rest) || listHasSub p rest

/-- JS `s.includes(p)`. -/
def strHasSub (s pat : String) : Bool := listHasSub pat.data s.data

/-- JS `s.toLowerCase()` (ASCII). -/
def strToLower (s : String) : String := String.mk (s.data.map Char.toLower)

/-- JS `s.replace(/([A-Z])/g, '-$1').toLowerCase()` : insert a dash before
every (ASCII) uppercase letter, then lowercase the whole string. -/
def kebabify (s : String) : String :=
  String.join (s.data.map (fun c => if c.isUpper then String.mk ['-', c.toLower] else String.mk [c]))

/-- Whitespace test used for JS `/\s+/` splitting (ASCII whitespace). -/
def wsChar (c : Char) : Bool := c = ' ' || c = '\t' || c = '\n' || c = '\r'

/-- Accumulator-based splitter; `acc` holds the current token reversed. -/
def splitWsAux : List Char → List Char → List String
  | acc, [] => if acc.isEmpty then [] else [String.mk acc.reverse]
  | acc, c :: rest =>
    if wsChar c then
      (if acc.isEmpty then [] else [String.mk acc.reverse]) ++ splitWsAux [] rest
    else splitWsAux (c :: acc) rest

/-- JS `s.split(/\s+/).filter(c => c.length > 0)` : maximal runs of
non-whitespace characters of `s`, in order. -/
def splitWs (s : String) : List String := splitWsAux [] s.data

/-! ## Reactive value cell (`Subject`, src/src/mocks/SDKAdapter.ts lines 472-515)

Callbacks are identified by numeric ids; whether a callback throws is an
environment parameter `throws`.  `set` and `sub` return, next to the new
cell, the trace of callback invocations they performed, in order.  Each
`Invocation` records the callback id, the argument it was passed, and
the value the cell's `get()` would have returned at the moment of the
call (the cell's stored `value` at that point). -/

namespace SDK

/-- `Subject<T>`: a stored value plus the subscriber list in subscription order. -/
structure Subject (T : Type) where
  value : T
  subscribers : List Nat
deriving DecidableEq

/-- One callback invocation: callback id, argument, and the value `get()`
returns during the call. -/
structure Invocation (T : Type) where
  cb : Nat
  arg : T
  observed : T
deriving DecidableEq

/-- The notification loop of `set`: `this.subscribers.forEach(sub => sub(value))`.
There is no try/catch in the source, so a throwing callback ends the loop:
the result's boolean is `false` when the loop was aborted by a throw (the
exception then propagates out of `set`).  `observed` is the cell's stored
value during the loop, which `forEach` does not change. -/
def notifyLoop (throws : Nat → Bool) (v observed : T) : List Nat → List (Invocation T) × Bool
  | [] => ([], true)
  | c :: cs =>
    if throws c then ([⟨c, v, observed⟩], false)
    else
      let r := notifyLoop throws v observed cs
      (⟨c, v, observed⟩ :: r.1, r.2)

/-- `set(value)` : `this.value = value; this.subscribers.forEach(sub => sub(value))`.
The assignment happens first; the forEach then runs over the updated cell. -/
def Subject.set (throws : Nat → Bool) (s : Subject T) (v : T) :
    Subject T × List (Invocation T) × Bool :=
  let s1 : Subject T := { s with value := v }
  let r := notifyLoop throws v s1.value s1.subscribers
  (s1, r.1, r.2)

/-- `sub(callback, immediate)` : push the callback, then, when `immediate`,
invoke it once with the current value. -/
def Subject.sub (s : Subject T) (c : Nat) (immediate : Bool) :
    Subject T × List (Invocation T) :=
  let s1 : Subject T := { s with subscribers := s.subscribers ++ [c] }
  (s1, if immediate then [⟨c, s1.value, s1.value⟩] else [])

/-- Environment in which no subscriber callback throws. -/
def noThrow : Nat → Bool := fun _ => false

theorem notifyLoop_noThrow (v observed : T) (subs : List Nat) :
    notifyLoop noThrow v observed subs = (subs.map (fun c => ⟨c, v, observed⟩), true) := by
  induction subs with
  | nil => rfl
  | cons c cs ih => simp [notifyLoop, noThrow, ih]

theorem notifyLoop_spec (throws : Nat → Bool) (v observed : T) (subs : List Nat) :
    notifyLoop throws v observed subs =
      (((subs.takeWhile (fun c => !throws c)) ++
          (subs.dropWhile (fun c => !throws c)).take 1).map (fun c => ⟨c, v, observed⟩),
        subs.all (fun c => !throws c)) := by
  induction subs with
  | nil => rfl
  | cons c cs ih =>
    by_cases h : throws c = true
    · simp [notifyLoop, h, List.takeWhile_cons, List.dropWhile_cons]
    · simp only [Bool.not_eq_true] at h
      simp [notifyLoop, h, List.takeWhile_cons, List.dropWhile_cons, ih]

/-- C5: subscribing with run-immediately on a cell holding `v0` invokes the
callback synchronously exactly once with `v0` at subscribe time; and a
subsequent `set v1` invokes every current subscriber (the previous ones
followed by the new one) exactly once each, with `v1`, in subscription
order, within the `set` call. -/
theorem subject_immediate_and_set_order (T : Type) (s : Subject T) (c : Nat) (v1 : T) :
    (s.sub c true).2 = [⟨c, s.value, s.value⟩] ∧
      (Subject.set noThrow (s.sub c true).1 v1).2.1 =
        (s.subscribers ++ [c]).map (fun x => ⟨x, v1, v1⟩) := by
  refine ⟨rfl, ?_⟩
  simp [Subject.set, Subject.sub, notifyLoop_noThrow]

/-- C6 counterexample: with subscribers `[1, 2]` where callback `1` throws,
`set 5` invokes callback `1` only; callback `2`, registered after the
throwing one, is a current subscriber but is never invoked in that `set`
call, and the loop is aborted (the exception propagates).  This refutes
the claim that remaining subscribers are still invoked. -/
theorem subject_throwing_subscriber_cex :
    (Subject.set (fun c => c == 1) (⟨0, [1, 2]⟩ : Subject Nat) 5).2.1.map Invocation.cb = [1] ∧
      2 ∈ (⟨0, [1, 2]⟩ : Subject Nat).subscribers ∧
      (Subject.set (fun c => c == 1) (⟨0, [1, 2]⟩ : Subject Nat) 5).2.2 = false := by
  refine ⟨rfl, by decide, rfl⟩

/-- C6 amended: `Subject.set` has no exception handling, so a throwing
subscriber aborts the notification loop: the subscribers registered before
the first throwing one are invoked with the new value, the throwing one is
itself invoked, subscribers registered after it are not invoked in that
`set` call, and the exception propagates (the completed flag is the
conjunction of all subscribers not throwing); the new value is stored
regardless, since the assignment precedes the loop. -/
theorem subject_set_abort_on_throw (T : Type) (throws : Nat → Bool) (s : Subject T) (v : T) :
    (Subject.set throws s v).1 = { s with value := v } ∧
      (Subject.set throws s v).2.1 =
        ((s.subscribers.takeWhile (fun c => !throws c)) ++
            (s.subscribers.dropWhile (fun c => !throws c)).take 1).map (fun c => ⟨c, v, v⟩) ∧
      (Subject.set throws s v).2.2 = s.subscribers.all (fun c => !throws c) := by
  refine ⟨rfl, ?_, ?_⟩ <;> simp [Subject.set, notifyLoop_spec]

/-- C10: `set v` stores `v` before any subscriber is notified — every
invocation in the trace observes `v` as the cell's value (`get()` during
notification returns `v`) — and subscribers are notified on every `set`
call with no equality short-circuit: the trace is exactly one invocation
per current subscriber, in order, whatever the previous value was
(including `v = s.value`). -/
theorem subject_set_stores_before_notify (T : Type) (s : Subject T) (v : T) :
    (Subject.set noThrow s v).1.value = v ∧
      (Subject.set noThrow s v).2.1 = s.subscribers.map (fun c => ⟨c, v, v⟩) ∧
      (Subject.set noThrow s s.value).2.1.length = s.subscribers.length := by
  refine ⟨rfl, ?_, ?_⟩ <;> simp [Subject.set, notifyLoop_noThrow]

end SDK

/-! ## SimVar mock (`SimVarMock`, shipped next to src/src/mocks/jsx.d.ts)

Only the pieces the claims touch: the keyed store, `getSimVarValue`,
`setSimVarValue`, and the access log with its `maxLogSize` trimming.
JS `Date.now()` is passed in as an explicit `now` argument.  JS values
are modelled by `SimValue` (a number, a string, or NaN for a failed
numeric coercion). -/

namespace SimVar

/-- A JS value stored in a SimVar (numbers are modelled as integers; the
claims never depend on float arithmetic). -/
inductive SimValue where
  | num (n : Int)
  | str (s : String)
  | nan
deriving DecidableEq

/-- JS truthiness of a `SimValue` (`value ? 1 : 0` in `coerceValue`). -/
def SimValue.truthy : SimValue → Bool
  | .num n => n != 0
  | .str s => s != ""
  | .nan => false

/-- One entry of the access log: `{name, unit, operation, value, timestamp}`.
`value` is `none` when a `get` hit a missing SimVar (JS `undefined`). -/
structure LogEntry where
  name : String
  unit : String
  operation : String
  value : Option SimValue
  timestamp : Nat
deriving DecidableEq

/-- `private maxLogSize: number = 10000`. -/
def maxLogSize : Nat := 10000

/-- `logAccess`: push the entry, then trim with
`this.accessLog = this.accessLog.slice(-this.maxLogSize)` when the log
exceeds `maxLogSize` (keep the most recent `maxLogSize` entries). -/
def logAccess (log : List LogEntry) (e : LogEntry) : List LogEntry :=
  let l := log ++ [e]
  if maxLogSize < l.length then l.drop (l.length - maxLogSize) else l

/-- Stored record of one SimVar (`SimVarValue` in the source). -/
structure SimVarRec where
  value : SimValue
  unit : String
  dataSource : String
  accessCount : Nat
  lastAccessTime : Nat
deriving DecidableEq

/-- Mock state: the keyed map (as an association list in insertion order)
and the access log. -/
structure SimVarState where
  simVars : List (String × SimVarRec)
  accessLog : List LogEntry
deriving DecidableEq

/-- `getKey(name, unit, dataSource)`. -/
def getKey (name unit dataSource : String) : String :=
  name ++ "|" ++ unit ++ "|" ++ dataSource

/-- Association-list lookup (JS `Map.get`). -/
def lookupVar (vars : List (String × SimVarRec)) (k : String) : Option SimVarRec :=
  match vars.find? (fun p => p.1 == k) with
  | some p => some p.2
  | none => none

/-- JS `Map.set`: overwrite in place when the key exists, append otherwise. -/
def setAssoc (vars : List (String × SimVarRec)) (k : String) (r : SimVarRec) :
    List (String × SimVarRec) :=
  if vars.any (fun p => p.1 == k) then
    vars.map (fun p => if p.1 == k then (k, r) else p)
  else vars ++ [(k, r)]

/-- `getDefaultValue(unit)`. -/
def getDefaultValue (unit : String) : SimValue :=
  if strHasSub (strToLower unit) ("bool") then .num 0
  else if strHasSub (strToLower unit) ("string") then .str ""
  else .num 0

/-- `coerceValue(value, unit)`; `Number(value)` on a non-numeric string is
modelled as NaN (and via `String.toInt?` on numeric strings). -/
def coerceValue (v : SimValue) (unit : String) : SimValue :=
  if strHasSub (strToLower unit) ("bool") then .num (if v.truthy then 1 else 0)
  else if strHasSub (strToLower unit) ("string") then
    .str (match v with | .num n => toString n | .str s => s | .nan => "NaN")
  else
    match v with
    | .num n => .num n
    | .str s => (match s.toInt? with | some n => SimValue.num n | none => SimValue.nan)
    | .nan => .nan

/-- `getSimVarValue(name, unit, dataSource)`: log a `get` entry (with the
found value, or `undefined`), then bump access metadata and return the
value, or a unit-based default when the SimVar is missing. -/
def getSimVarValue (st : SimVarState) (name unit dataSource : String) (now : Nat) :
    SimVarState × SimValue :=
  let key := getKey name unit dataSource
  let rec? := lookupVar st.simVars key
  let log' := logAccess st.accessLog ⟨name, unit, ("get"), rec?.map (fun r => r.value), now⟩
  match rec? with
  | some r =>
    ({ simVars := setAssoc st.simVars key
        { r with accessCount := r.accessCount + 1, lastAccessTime := now },
       accessLog := log' }, r.value)
  | none => ({ st with accessLog := log' }, getDefaultValue unit)

/-- `setSimVarValue(name, unit, value, dataSource)`: store the coerced value
(keeping any previous access count), then log a `set` entry carrying the
raw (uncoerced) value. -/
def setSimVarValue (st : SimVarState) (name unit : String) (value : SimValue)
    (dataSource : String) (now : Nat) : SimVarState :=
  let key := getKey name unit dataSource
  let existing := lookupVar st.simVars key
  let vars' := setAssoc st.simVars key
    { value := coerceValue value unit, unit := unit, dataSource := dataSource,
      accessCount := (existing.map (fun r => r.accessCount)).getD 0,
      lastAccessTime := now }
  { simVars := vars',
    accessLog := logAccess st.accessLog ⟨name, unit, ("set"), some value, now⟩ }

theorem logAccess_small (log : List LogEntry) (e : LogEntry)
    (h : log.length < maxLogSize) : logAccess log e = log ++ [e] := by
  have hn : ¬ maxLogSize < (log ++ [e]).length := by
    simp only [List.length_append, List.length_cons, List.length_nil]
    omega
  simp only [logAccess]
  rw [if_neg hn]

theorem logAccess_large (log : List LogEntry) (e : LogEntry)
    (h : maxLogSize ≤ log.length) :
    logAccess log e = (log ++ [e]).drop (log.length + 1 - maxLogSize) := by
  have hp : maxLogSize < (log ++ [e]).length := by
    simp only [List.length_append, List.length_cons, List.length_nil]
    omega
  have hl : (log ++ [e]).length - maxLogSize = log.length + 1 - maxLogSize := by
    simp only [List.length_append, List.length_cons, List.length_nil]
  simp only [logAccess]
  rw [if_pos hp, hl]

theorem logAccess_suffix (log : List LogEntry) (e : LogEntry) :
    ∃ k, logAccess log e = (log ++ [e]).drop k := by
  by_cases h : log.length < maxLogSize
  · exact ⟨0, by simp [logAccess_small log e h]⟩
  · exact ⟨log.length + 1 - maxLogSize, logAccess_large log e (by omega)⟩

theorem getSimVarValue_accessLog (st : SimVarState) (name unit dataSource : String) (now : Nat) :
    (getSimVarValue st name unit dataSource now).1.accessLog =
      logAccess st.accessLog
        (⟨name, unit, ("get"),
          (lookupVar st.simVars (getKey name unit dataSource)).map (fun r => r.value),
          now⟩ : LogEntry) := by
  simp only [getSimVarValue]
  cases lookupVar st.simVars (getKey name unit dataSource) <;> rfl

/-- C9 counterexample: a state whose log already holds `maxLogSize`
entries — the distinguished oldest entry `e0` followed by 9999 copies of
`e1` — loses `e0` from the log after a single `getSimVarValue` call, so
previously logged entries are removed by a `get` operation. -/
theorem simvar_log_trim_cex :
    (⟨("ALT"), ("feet"), ("set"), some (.num 1), 1⟩ : LogEntry) ∈
        (SimVarState.mk []
          (⟨("ALT"), ("feet"), ("set"), some (.num 1), 1⟩ ::
            List.replicate 9999 ⟨("SPD"), ("knots"), ("set"), some (.num 2), 2⟩)).accessLog ∧
      (⟨("ALT"), ("feet"), ("set"), some (.num 1), 1⟩ : LogEntry) ∉
        (getSimVarValue
          (SimVarState.mk []
            (⟨("ALT"), ("feet"), ("set"), some (.num 1), 1⟩ ::
              List.replicate 9999 ⟨("SPD"), ("knots"), ("set"), some (.num 2), 2⟩))
          ("HDG") ("degrees") ("") 3).1.accessLog := by
  constructor
  · exact List.mem_cons_self _ _
  · have hlen :
        ((⟨("ALT"), ("feet"), ("set"), some (.num 1), 1⟩ : LogEntry) ::
          List.replicate 9999 (⟨("SPD"), ("knots"), ("set"), some (.num 2), 2⟩ : LogEntry)).length
          = maxLogSize := by
      rw [List.length_cons, List.length_replicate]
      decide
    have hget := getSimVarValue_accessLog
      (SimVarState.mk []
        (⟨("ALT"), ("feet"), ("set"), some (.num 1), 1⟩ ::
          List.replicate 9999 ⟨("SPD"), ("knots"), ("set"), some (.num 2), 2⟩))
      ("HDG") ("degrees") ("") 3
    simp only [lookupVar, List.find?_nil, Option.map_none'] at hget
    rw [hget, logAccess_large _ _ (le_of_eq hlen.symm), hlen]
    simp only [maxLogSize, Nat.add_sub_cancel_left, List.cons_append, List.drop_succ_cons,
      Nat.sub_self, List.drop_zero]
    intro hmem
    rcases List.mem_append.mp hmem with h | h
    · rcases (List.mem_replicate.mp h) with ⟨-, h⟩
      exact absurd (congrArg LogEntry.name h) (by decide)
    · rcases List.mem_singleton.mp h with h
      exact absurd (congrArg LogEntry.name h) (by decide)

/-- C9 amended: every `getSimVarValue` appends exactly one entry with
operation `get` and every `setSimVarValue` appends exactly one entry with
operation `set`, each carrying `{name, unit, operation, value, timestamp}`;
as long as the log holds fewer than 10000 entries nothing is removed, but
the log is capped at the most recent 10000 entries, so once it is full
each get/set drops the oldest entry (the new log is always a suffix of the
old log with the new entry appended). -/
theorem simvar_log_append_and_trim (st : SimVarState) (name unit dataSource : String)
    (value : SimValue) (now : Nat) :
    (st.accessLog.length < maxLogSize →
      (getSimVarValue st name unit dataSource now).1.accessLog =
        st.accessLog ++
          [(⟨name, unit, ("get"),
            (lookupVar st.simVars (getKey name unit dataSource)).map (fun r => r.value),
            now⟩ : LogEntry)] ∧
      (setSimVarValue st name unit value dataSource now).accessLog =
        st.accessLog ++ [(⟨name, unit, ("set"), some value, now⟩ : LogEntry)]) ∧
    (∃ k, (getSimVarValue st name unit dataSource now).1.accessLog =
        (st.accessLog ++
          [(⟨name, unit, ("get"),
            (lookupVar st.simVars (getKey name unit dataSource)).map (fun r => r.value),
            now⟩ : LogEntry)]).drop k) ∧
    (∃ k, (setSimVarValue st name unit value dataSource now).accessLog =
        (st.accessLog ++ [(⟨name, unit, ("set"), some value, now⟩ : LogEntry)]).drop k) := by
  have hget := getSimVarValue_accessLog st name unit dataSource now
  have hset : (setSimVarValue st name unit value dataSource now).accessLog =
      logAccess st.accessLog (⟨name, unit, ("set"), some value, now⟩ : LogEntry) := rfl
  refine ⟨fun h => ⟨?_, ?_⟩, ?_, ?_⟩
  · rw [hget, logAccess_small _ _ h]
  · rw [hset, logAccess_small _ _ h]
  · rw [hget]; exact logAccess_suffix _ _
  · rw [hset]; exact logAccess_suffix _ _

/-- Witness for `simvar_log_append_and_trim` at a concrete small state. -/
theorem simvar_log_append_and_trim_witness :
    (SimVarState.mk [] []).accessLog.length < maxLogSize ∧
      (getSimVarValue (SimVarState.mk [] []) ("ALT") ("feet") ("") 7).1.accessLog =
        [⟨("ALT"), ("feet"), ("get"), none, 7⟩] := by
  refine ⟨by decide, ?_⟩
  have h := (simvar_log_append_and_trim (SimVarState.mk [] []) ("ALT") ("feet") ("")
    (.num 0) 7).1 (by decide)
  simpa [lookupVar] using h.1

end SimVar

/-! ## Tree builder: children normalization
(`FSComponent.buildComponent`'s `processChildren`,
src/src/mocks/MSFSGlobals.ts lines 171-239 and src/src/mocks/SDKAdapter.ts
lines 173-241; both copies implement the same child pipeline)

A child as passed to `buildComponent` is `null`, `undefined`, a boolean,
a string, a number, an already-built DOM node, a VNode (possibly carrying
a built `instance`), or a nested array.  `processChildren` appends nodes
to the element under construction; the embedding returns the list of
appended nodes in order.  For an intrinsic (string-typed) VNode child
without an instance, the source rebuilds it with `buildComponent`, which
with a document present always returns a VNode whose `instance` is the
created element, so the source's "if still a VNode, reprocess" arm is
unreachable in this fragment and the build arm appends exactly the built
element.  Attribute/prop application is orthogonal to which children get
appended and is not part of this fragment. -/

namespace Build

/-- A DOM node produced by the builder: an element (tag plus appended
children, in order) or a text node. -/
inductive BNode where
  | elem (tag : String) (children : List BNode)
  | text (s : String)

mutual
/-- A JSX child value. -/
inductive BChild where
  | nullv
  | undef
  | bval (b : Bool)
  | str (s : String)
  | num (n : Int)
  | dom (n : BNode)
  | vn (v : BVNode)
  | arr (l : List BChild)
/-- An intrinsic VNode: `{type, props, children, instance}` (props omitted:
they do not influence which children are appended). -/
inductive BVNode where
  | mk (type : String) (inst : Option BNode) (children : List BChild)
end

/-- The null/undefined filter applied when extracting `vnodeChildren` from
a VNode child before rebuilding it (`.filter(c => c !== null && c !== undefined)`). -/
def filterNU (l : List BChild) : List BChild :=
  l.filter (fun c => match c with | .nullv => false | .undef => false | _ => true)

theorem sizeOf_filterNU_le (l : List BChild) : sizeOf (filterNU l) ≤ sizeOf l := by
  induction l with
  | nil => simp [filterNU]
  | cons c cs ih =>
    simp only [filterNU, List.filter_cons] at *
    split
    · simp only [List.cons.sizeOf_spec]
      omega
    · simp only [List.cons.sizeOf_spec]
      omega

mutual
/-- `buildComponent(type, props, ...children)` for an intrinsic tag with a
document present: create the element and run `processChildren`; the
returned VNode's `instance` is the element (embedded as the element itself). -/
def buildComponent (t : String) (cs : List BChild) : BNode :=
  .elem t (processChildren cs)
termination_by sizeOf cs * 2 + 1
/-- `processChildren(childList)`: process each child in order, concatenating
the nodes each one appends. -/
def processChildren : List BChild → List BNode
  | [] => []
  | c :: cs => processOne c ++ processChildren cs
termination_by l => sizeOf l * 2
/-- One iteration of the `childList.forEach` body: which nodes the child
appends to the element. -/
def processOne : BChild → List BNode
  | .nullv => []
  | .undef => []
  | .str s => [.text s]
  | .num n => [.text (toString n)]
  | .bval _ => []
  | .dom n => [n]
  | .arr l => processChildren l
  | .vn v =>
    match v with
    | .mk _ (some n) _ => [n]
    | .mk ty none kids => [buildComponent ty (filterNU kids)]
termination_by c => sizeOf c * 2
decreasing_by
  all_goals simp_wf
  all_goals try have h := sizeOf_filterNU_le kids
  all_goals omega
end

/-- C7: nested arrays are flattened recursively, `null`, `undefined`, and
booleans produce no DOM nodes, strings/numbers become text nodes, and in
particular the children array `[null, 'a', [1, false, <x/>], undefined]`
(with `<x/>` already built to an `x` element) produces exactly the text
nodes `"a"` and `"1"` followed by the built `<x/>` element, and nothing
else. -/
theorem build_children_normalization :
    (∀ cs : List BChild, processChildren (.nullv :: cs) = processChildren cs) ∧
    (∀ cs : List BChild, processChildren (.undef :: cs) = processChildren cs) ∧
    (∀ (b : Bool) (cs : List BChild), processChildren (.bval b :: cs) = processChildren cs) ∧
    (∀ (s : String) (cs : List BChild),
      processChildren (.str s :: cs) = .text s :: processChildren cs) ∧
    (∀ (n : Int) (cs : List BChild),
      processChildren (.num n :: cs) = .text (toString n) :: processChildren cs) ∧
    (∀ (l cs : List BChild),
      processChildren (.arr l :: cs) = processChildren l ++ processChildren cs) ∧
    processChildren
        [.nullv, .str ("a"), .arr [.num 1, .bval false,
          .vn (.mk ("x") (some (.elem ("x") [])) [])], .undef] =
      [.text ("a"), .text ("1"), .elem ("x") []] := by
  refine ⟨?_, ?_, ?_, ?_, ?_, ?_, ?_⟩ <;>
    intros <;>
    · simp [processChildren.eq_1, processChildren.eq_2, processOne.eq_def,
        buildComponent, filterNU]
      try decide

end Build

/-! ## Mount engine: adoption / cloning policy
(`adoptOrCloneNode`, src/src/mocks/SDKAdapter.ts lines 274-291, and
`recreateNodeInDocument`, src/src/mocks/MSFSGlobals.ts lines 276-328)

Nodes carry their owner document as a numeric id and their JS identity as
`nid`.  Whether `document.adoptNode` exists, and whether calling it
throws, are environment flags.  `adoptNode` moves the node (and its
subtree) to the target document preserving identity; `cloneNode(true)`
deep-copies preserving structure (fresh identities, modelled as nid 0,
owner document unchanged — DOM clones stay in their source document);
recreation builds fresh nodes in the target document copying tag,
namespace, attributes and children.  Tags are modelled lowercase
(`tagName.toLowerCase()` is applied by the source when recreating). -/

namespace Mount

/-- A DOM node for the mount model: element (with an SVG-namespace flag),
text, or document fragment. -/
inductive MNode where
  | elem (nid : Nat) (doc : Nat) (svg : Bool) (tag : String)
      (attrs : List (String × String)) (children : List MNode)
  | text (nid : Nat) (doc : Nat) (s : String)
  | frag (nid : Nat) (doc : Nat) (children : List MNode)

/-- `node.ownerDocument`. -/
def MNode.doc : MNode → Nat
  | .elem _ d _ _ _ _ => d
  | .text _ d _ => d
  | .frag _ d _ => d

mutual
/-- `document.adoptNode`: same node (identity preserved), owner document of
the whole subtree set to the adopting document. -/
def setDoc (d : Nat) : MNode → MNode
  | .elem i _ svg t a cs => .elem i d svg t a (setDocList d cs)
  | .text i _ s => .text i d s
  | .frag i _ cs => .frag i d (setDocList d cs)
def setDocList (d : Nat) : List MNode → List MNode
  | [] => []
  | c :: cs => setDoc d c :: setDocList d cs
end

mutual
/-- `node.cloneNode(true)`: a deep copy with fresh identities (untracked,
modelled as 0), same owner document, same structure. -/
def cloneNode : MNode → MNode
  | .elem _ d svg t a cs => .elem 0 d svg t a (cloneList cs)
  | .text _ d s => .text 0 d s
  | .frag _ d cs => .frag 0 d (cloneList cs)
def cloneList : List MNode → List MNode
  | [] => []
  | c :: cs => cloneNode c :: cloneList cs
end

/-- The structure of a node with identity and owner document erased:
namespace, tag name, attributes, text content and child structure. -/
inductive MShape where
  | elem (svg : Bool) (tag : String) (attrs : List (String × String)) (children : List MShape)
  | text (s : String)
  | frag (children : List MShape)

mutual
def shape : MNode → MShape
  | .elem _ _ svg t a cs => .elem svg t a (shapeList cs)
  | .text _ _ s => .text s
  | .frag _ _ cs => .frag (shapeList cs)
def shapeList : List MNode → List MShape
  | [] => []
  | c :: cs => shape c :: shapeList cs
end

/-- Host-environment facts about the target document's `adoptNode`. -/
structure DocEnv where
  adoptAvailable : Bool
  adoptThrows : Bool
deriving DecidableEq

/-- What the mount step did with a node. -/
inductive MountOp where
  | unchanged
  | adopted
  | cloned
  | recreated
deriving DecidableEq

/-- `adoptOrCloneNode(node)` (SDKAdapter): same document → use the node
unchanged; otherwise try `adoptNode` when present (falling through when it
throws); otherwise `cloneNode(true)`. -/
def adoptOrCloneNode (env : DocEnv) (target : Nat) (n : MNode) : MNode × MountOp :=
  if n.doc == target then (n, .unchanged)
  else if env.adoptAvailable && !env.adoptThrows then (setDoc target n, .adopted)
  else (cloneNode n, .cloned)

mutual
/-- `recreateNodeInDocument(node, doc)` (MSFSGlobals): same document → use
the node unchanged; otherwise try `adoptNode`; otherwise recreate the node
in the target document — elements via `createElement`/`createElementNS`
with every attribute copied in order and children recreated recursively,
texts via `createTextNode`, fragments via `createDocumentFragment` plus
recreated children. -/
def recreateNode (env : DocEnv) (target : Nat) : MNode → MNode × MountOp
  | .elem i d svg t a cs =>
    if d == target then (.elem i d svg t a cs, .unchanged)
    else if env.adoptAvailable && !env.adoptThrows then
      (setDoc target (.elem i d svg t a cs), .adopted)
    else (.elem 0 target svg t a (recreateList env target cs), .recreated)
  | .text i d s =>
    if d == target then (.text i d s, .unchanged)
    else if env.adoptAvailable && !env.adoptThrows then
      (setDoc target (.text i d s), .adopted)
    else (.text 0 target s, .recreated)
  | .frag i d cs =>
    if d == target then (.frag i d cs, .unchanged)
    else if env.adoptAvailable && !env.adoptThrows then
      (setDoc target (.frag i d cs), .adopted)
    else (.frag 0 target (recreateList env target cs), .recreated)
def recreateList (env : DocEnv) (target : Nat) : List MNode → List MNode
  | [] => []
  | c :: cs => (recreateNode env target c).1 :: recreateList env target cs
end

mutual
theorem shape_setDoc (d : Nat) (n : MNode) : shape (setDoc d n) = shape n := by
  cases n with
  | elem i dd svg t a cs => simp [setDoc, shape, shapeList_setDoc]
  | text i dd s => simp [setDoc, shape]
  | frag i dd cs => simp [setDoc, shape, shapeList_setDoc]
theorem shapeList_setDoc (d : Nat) (cs : List MNode) :
    shapeList (setDocList d cs) = shapeList cs := by
  cases cs with
  | nil => rfl
  | cons c cs => simp [setDocList, shapeList, shape_setDoc, shapeList_setDoc]
end

mutual
theorem shape_clone (n : MNode) : shape (cloneNode n) = shape n := by
  cases n with
  | elem i dd svg t a cs => simp [cloneNode, shape, shapeList_clone]
  | text i dd s => simp [cloneNode, shape]
  | frag i dd cs => simp [cloneNode, shape, shapeList_clone]
theorem shapeList_clone (cs : List MNode) : shapeList (cloneList cs) = shapeList cs := by
  cases cs with
  | nil => rfl
  | cons c cs => simp [cloneList, shapeList, shape_clone, shapeList_clone]
end

mutual
theorem shape_recreate (env : DocEnv) (target : Nat) (n : MNode) :
    shape (recreateNode env target n).1 = shape n := by
  cases n with
  | elem i dd svg t a cs =>
    simp only [recreateNode]
    split
    · rfl
    · split
      · exact shape_setDoc target _
      · simp [shape, shapeList_recreate]
  | text i dd s =>
    simp only [recreateNode]
    split
    · rfl
    · split
      · exact shape_setDoc target _
      · rfl
  | frag i dd cs =>
    simp only [recreateNode]
    split
    · rfl
    · split
      · exact shape_setDoc target _
      · simp [shape, shapeList_recreate]
theorem shapeList_recreate (env : DocEnv) (target : Nat) (cs : List MNode) :
    shapeList (recreateList env target cs) = shapeList cs := by
  cases cs with
  | nil => rfl
  | cons c cs => simp [recreateList, shapeList, shape_recreate, shapeList_recreate]
end

/-- C8: during mount, a node whose owner document already equals the target
document is used unchanged (same node, no adoption, no cloning), in both
the SDKAdapter `adoptOrCloneNode` and the MSFSGlobals
`recreateNodeInDocument`; a node from a different document is adopted when
`adoptNode` is available and does not throw; and only when adoption is
unavailable or throws do the engines fall back to deep cloning
(`adoptOrCloneNode`) or node-by-node recreation (`recreateNodeInDocument`),
both preserving tag name, namespace, attributes and children. -/
theorem mount_adoption_policy (env : DocEnv) (target : Nat) (n : MNode) :
    (n.doc = target →
      adoptOrCloneNode env target n = (n, .unchanged) ∧
      recreateNode env target n = (n, .unchanged)) ∧
    (n.doc ≠ target → env.adoptAvailable = true → env.adoptThrows = false →
      adoptOrCloneNode env target n = (setDoc target n, .adopted) ∧
      recreateNode env target n = (setDoc target n, .adopted) ∧
      shape (setDoc target n) = shape n) ∧
    (n.doc ≠ target → (env.adoptAvailable = false ∨ env.adoptThrows = true) →
      (adoptOrCloneNode env target n).2 = .cloned ∧
      shape (adoptOrCloneNode env target n).1 = shape n ∧
      (recreateNode env target n).2 = .recreated ∧
      shape (recreateNode env target n).1 = shape n) := by
  refine ⟨fun h => ⟨?_, ?_⟩, fun h ha ht => ⟨?_, ?_, shape_setDoc target n⟩, fun h hor => ?_⟩
  · simp [adoptOrCloneNode, h]
  · cases n <;> simp_all [recreateNode, MNode.doc]
  · simp [adoptOrCloneNode, h, ha, ht]
  · cases n <;> simp_all [recreateNode, MNode.doc, setDoc]
  · have hno : (env.adoptAvailable && !env.adoptThrows) = false := by
      rcases hor with h1 | h1 <;> simp [h1]
    refine ⟨?_, ?_, ?_, shape_recreate env target n⟩
    · simp [adoptOrCloneNode, h, hno]
    · simp [adoptOrCloneNode, h, hno, shape_clone]
    · rcases hor with h1 | h1 <;> cases n <;> simp_all [recreateNode, MNode.doc]

/-- Witness for `mount_adoption_policy`: a cross-document SVG circle with
an attribute, in a host whose `adoptNode` is unavailable, is cloned /
recreated with its shape preserved. -/
theorem mount_adoption_policy_witness :
    ((MNode.elem 5 1 true ("circle") [(("class"), ("ring"))] []).doc ≠ 2) ∧
      ((adoptOrCloneNode ⟨false, false⟩ 2
          (MNode.elem 5 1 true ("circle") [(("class"), ("ring"))] [])).2 = .cloned ∧
        shape (adoptOrCloneNode ⟨false, false⟩ 2
          (MNode.elem 5 1 true ("circle") [(("class"), ("ring"))] [])).1 =
          shape (MNode.elem 5 1 true ("circle") [(("class"), ("ring"))] []) ∧
        (recreateNode ⟨false, false⟩ 2
          (MNode.elem 5 1 true ("circle") [(("class"), ("ring"))] [])).2 = .recreated ∧
        shape (recreateNode ⟨false, false⟩ 2
          (MNode.elem 5 1 true ("circle") [(("class"), ("ring"))] [])).1 =
          shape (MNode.elem 5 1 true ("circle") [(("class"), ("ring"))] [])) :=
  ⟨by decide,
    (mount_adoption_policy ⟨false, false⟩ 2
      (MNode.elem 5 1 true ("circle") [(("class"), ("ring"))] [])).2.2
      (by decide) (Or.inl rfl)⟩

end Mount

/-! ## Reference reconciliation (test-utils file `part_001`)

The DOM after mount is modelled as a tree of nodes carrying a numeric
identity `nid` (JS object identity; `===`, `WeakSet` membership and
`indexOf` compare identities).  `querySelector`/`querySelectorAll` search
the pre-order list of proper descendants, exactly as the DOM does.
Tag names are modelled lowercase (the source always compares
`el.tagName.toLowerCase() === type.toLowerCase()`; CSS tag selectors
match case-insensitively).  Reference handles are numeric ids; their
mutable `instance` fields live in an explicit store `RefStore`
(`none` = JS `null`/a non-Node value).  The selector-value escaping in
the source (`String(value).replace(/"/g,'\\"')`) round-trips through the
selector parser, so attribute values are compared directly. -/

namespace Recon

/-- A mounted DOM node: element (tag, attributes in order, children) or
text.  `nid` is the node's JS identity. -/
inductive DNode where
  | elem (nid : Nat) (tag : String) (attrs : List (String × String)) (children : List DNode)
  | text (nid : Nat) (s : String)

def DNode.nid : DNode → Nat
  | .elem i _ _ _ => i
  | .text i _ => i

def DNode.isElem : DNode → Bool
  | .elem _ _ _ _ => true
  | .text _ _ => false

def DNode.tag : DNode → String
  | .elem _ t _ _ => t
  | .text _ _ => ""

def DNode.childrenOf : DNode → List DNode
  | .elem _ _ _ cs => cs
  | .text _ _ => []

/-- `el.getAttribute(a)` (first binding wins; `setAttribute` keeps
attribute names unique). -/
def getAttr : DNode → String → Option String
  | .elem _ _ attrs _, a => (attrs.find? (fun p => p.1 == a)).map (fun p => p.2)
  | .text _ _, _ => none

mutual
/-- A node followed by its proper descendants, in document (pre-)order. -/
def selfAnd : DNode → List DNode
  | .text i s => [.text i s]
  | .elem i t a cs => .elem i t a cs :: descendList cs
/-- Document-order traversal of a forest. -/
def descendList : List DNode → List DNode
  | [] => []
  | c :: cs => selfAnd c ++ descendList cs
end

/-- The proper descendants of a node, in document order (the search space
of `querySelector`/`querySelectorAll` on that node). -/
def DNode.descendants (n : DNode) : List DNode := descendList n.childrenOf

/-- `root.contains(x)` by identity: `x` is `root` itself or a descendant. -/
def containsNode (root : DNode) (i : Nat) : Bool :=
  root.nid == i || root.descendants.any (fun d => d.nid == i)

/-- `root.querySelector(sel)`: first proper descendant matching, in
document order. -/
def qsFirst (root : DNode) (p : DNode → Bool) : Option DNode :=
  root.descendants.find? p

/-- `root.querySelectorAll(sel)`: all matching proper descendants, in
document order. -/
def qsAll (root : DNode) (p : DNode → Bool) : List DNode :=
  root.descendants.filter p

/-- `el.classList` (split of the `class` attribute on whitespace). -/
def classListOf (n : DNode) : List String :=
  splitWs ((getAttr n ("class")).getD (""))

mutual
/-- The parent (by nid) of the node with identity `i` within this tree,
when `i` occurs in it (`el.parentNode`). -/
def parentIn : DNode → Nat → Option Nat
  | .text _ _, _ => none
  | .elem p _ _ cs, i =>
    if cs.any (fun c => c.nid == i) then some p else parentList cs i
def parentList : List DNode → Nat → Option Nat
  | [], _ => none
  | c :: cs, i =>
    match parentIn c i with
    | some r => some r
    | none => parentList cs i
end

/-- A JS prop value as far as reconciliation inspects one: a string (or a
value the source passes through `String(...)`), or a class object
`{name: bool, ...}`. -/
inductive PVal where
  | str (s : String)
  | clsObj (l : List (String × Bool))

/-- JS `String(value)` on a prop value (a plain object stringifies to
`"[object Object]"`). -/
def pvalString : PVal → String
  | .str s => s
  | .clsObj _ => "[object Object]"

mutual
/-- A VNode as reconciliation sees it: `type` (a string for intrinsic
elements, `none` for anything falsy/non-string), the identity of the
reference handle in `props.ref` (if any), the remaining props bag in
declaration order, and the children. -/
inductive RVNode where
  | mk (type : Option String) (refId : Option Nat) (props : List (String × PVal))
      (children : List RChild)

/-- A VNode child: a nested VNode, text (string/number), a boolean,
null/undefined, or a nested array. -/
inductive RChild where
  | vn (v : RVNode)
  | txt (s : String)
  | num (n : Int)
  | bval (b : Bool)
  | nullv
  | arr (l : List RChild)
end

def RVNode.typeOf : RVNode → Option String
  | .mk t _ _ _ => t

def RVNode.refId : RVNode → Option Nat
  | .mk _ r _ _ => r

def RVNode.props : RVNode → List (String × PVal)
  | .mk _ _ p _ => p

def RVNode.childrenOf : RVNode → List RChild
  | .mk _ _ _ c => c

/-- JS truthiness of `vnode.type` (`''` is falsy: `vnode.type || '*'`,
`!vnode.type || ...`). -/
def effType (v : RVNode) : Option String :=
  match v.typeOf with
  | some t => if t == "" then none else some t
  | none => none

/-- `vnode.props[k]` (`undefined` when absent). -/
def propLookup (v : RVNode) (k : String) : Option PVal :=
  (v.props.find? (fun p => p.1 == k)).map (fun p => p.2)

/-- `vnode.props?.id && typeof vnode.props.id === 'string'`. -/
def propId (v : RVNode) : Option String :=
  match propLookup v ("id") with
  | some (.str s) => some s
  | _ => none

/-- JS truthiness of `vnode.props?.class` (`''` falsy, any object truthy). -/
def classTruthy : Option PVal → Bool
  | some (.str s) => s != ""
  | some (.clsObj _) => true
  | none => false

/-- The class-name list: split a string form on whitespace, or take the
truthy keys of an object form, in order. -/
def classNamesOf : PVal → List String
  | .str s => splitWs s
  | .clsObj l => (l.filter (fun p => p.2)).map (fun p => p.1)

/-- The data-prop filter:
`key.startsWith('data-') || (key.startsWith('data') && key.length > 4 && key[4] === key[4].toUpperCase())`. -/
def isDataKey (k : String) : Bool :=
  strStarts k ("data-") ||
    (strStarts k ("data") && decide (4 < k.data.length) &&
      (k.data.getD 4 ' ').toUpper == k.data.getD 4 ' ')

/-- The camelCase-to-kebab conversion applied to a data prop key:
`if (key.startsWith('data') && !key.startsWith('data-')) attr = 'data-' + key.substring(4).replace(/([A-Z])/g, '-$1').toLowerCase()`. -/
def convertDataKey (k : String) : String :=
  if strStarts k ("data") && !strStarts k ("data-") then
    ("data-") ++ kebabify (String.mk (k.data.drop 4))
  else k

/-- The attribute name actually used in the compound selector:
`attr.replace(/([A-Z])/g, '-$1').toLowerCase()` applied on top of
`convertDataKey`. -/
def dataSelectorAttr (k : String) : String := kebabify (convertDataKey k)

/-- The `[attr="value"]` pairs of the compound data selector built from a
props bag: every data-prop key (in declaration order), kebab-converted,
paired with the stringified prop value. -/
def dataSelectorPairs (props : List (String × PVal)) : List (String × String) :=
  (props.filter (fun kv => isDataKey kv.1)).map
    (fun kv => (dataSelectorAttr kv.1, pvalString kv.2))

/-- The attribute name the builder gives an SVG element for a prop key
(src/src/mocks/MSFSGlobals.ts line 112 / SDKAdapter.ts line 124):
a fixed camelCase map, else dash-insertion plus lowercasing. -/
def svgBuildAttrName (k : String) : String :=
  match [(("strokeWidth"), ("stroke-width")), (("fillRule"), ("fill-rule")),
      (("dominantBaseline"), ("dominant-baseline")),
      (("textAnchor"), ("text-anchor"))].find? (fun p => p.1 == k) with
  | some p => p.2
  | none => kebabify k

/-- C3 (code bug): the reconciliation engine's translation of a camelCase
data prop key does NOT yield the explicit kebab-case form: `dataRange`
becomes selector attribute `data--range` (double hyphen) because the
conversion prepends `data-` to a string that the `-$1` replacement has
already prefixed with a hyphen, while the explicit `data-range` key stays
`data-range` and the builder stores the SVG attribute as `data-range`.
The selector attribute for the camelCase form therefore never matches the
attribute the builder wrote, contradicting the code's own comment
("convert to data-range") and the spec's declared equivalence. -/
theorem data_key_conversion_bug :
    isDataKey ("dataRange") = true ∧
      convertDataKey ("dataRange") = "data--range" ∧
      dataSelectorAttr ("dataRange") = "data--range" ∧
      dataSelectorAttr ("data-range") = "data-range" ∧
      svgBuildAttrName ("dataRange") = "data-range" ∧
      dataSelectorAttr ("dataRange") ≠ dataSelectorAttr ("data-range") ∧
      dataSelectorAttr ("dataRange") ≠ svgBuildAttrName ("dataRange") := by
  refine ⟨by decide, by decide, by decide, by decide, by decide, by decide, by decide⟩


/-! ### Reference-handle store -/

/-- The mutable `instance` fields of all reference handles, keyed by handle
identity: `none` models `null` (or a non-Node value); `some i` the node
with identity `i`. -/
abbrev RefStore := List (Nat × Option Nat)

/-- Read `ref.instance` (handles not in the store are unset). -/
def getRef (st : RefStore) (r : Nat) : Option Nat :=
  match st.find? (fun p => p.1 == r) with
  | some p => p.2
  | none => none

/-- Write `ref.instance = v`. -/
def setRef (st : RefStore) (r : Nat) (v : Option Nat) : RefStore :=
  if st.any (fun p => p.1 == r) then
    st.map (fun p => if p.1 == r then (r, v) else p)
  else st ++ [(r, v)]

theorem getRef_setRef_self (st : RefStore) (r : Nat) (v : Option Nat) :
    getRef (setRef st r v) r = v := by
  by_cases h : (st.any (fun p => p.1 == r)) = true
  · simp only [setRef]
    rw [if_pos h]
    simp only [getRef, List.find?_map]
    have hpred : ((fun p : Nat × Option Nat => p.1 == r) ∘
        (fun p : Nat × Option Nat => if p.1 == r then (r, v) else p)) =
        (fun p : Nat × Option Nat => p.1 == r) := by
      funext p
      by_cases hp : p.1 = r <;> simp [hp]
    rw [hpred]
    rcases hf : st.find? (fun p => p.1 == r) with _ | p0
    · rw [List.find?_eq_none] at hf
      rcases List.any_eq_true.mp h with ⟨x, hx, hxr⟩
      exact absurd hxr (hf x hx)
    · have hp0 := List.find?_some hf
      have hp1 : p0.1 = r := by simpa using hp0
      rw [hf]
      simp [hp1]
  · simp only [setRef]
    rw [if_neg h]
    simp only [getRef, List.find?_append]
    have hnone : st.find? (fun p => p.1 == r) = none := by
      rw [List.find?_eq_none]
      intro x hx hxr
      exact h (List.any_eq_true.mpr ⟨x, hx, hxr⟩)
    rw [hnone]
    simp [List.find?_cons]

theorem getRef_setRef_ne (st : RefStore) (r q : Nat) (v : Option Nat) (h : q ≠ r) :
    getRef (setRef st r v) q = getRef st q := by
  by_cases ha : (st.any (fun p => p.1 == r)) = true
  · simp only [setRef]
    rw [if_pos ha]
    simp only [getRef, List.find?_map]
    have hpred : ((fun p : Nat × Option Nat => p.1 == q) ∘
        (fun p : Nat × Option Nat => if p.1 == r then (r, v) else p)) =
        (fun p : Nat × Option Nat => p.1 == q) := by
      funext p
      by_cases hp : p.1 = r
      · simp [hp, Ne.symm h, fun hh : r = q => h hh.symm]
      · simp [hp]
    rw [hpred]
    rcases hf : st.find? (fun p => p.1 == q) with _ | p0
    · rw [hf]
      simp
    · have hp0 := List.find?_some hf
      have hq : p0.1 = q := by simpa using hp0
      have hne : ¬ p0.1 = r := by
        rw [hq]
        exact h
      rw [hf]
      simp [Option.map_some', hne]
  · simp only [setRef]
    rw [if_neg ha]
    simp only [getRef, List.find?_append]
    have hsingle : List.find? (fun p : Nat × Option Nat => p.1 == q) [(r, v)] = none := by
      have hrq : ¬ r = q := fun hh => h hh.symm
      have : ((r, v).1 == q) = false := by simp [hrq]
      simp [List.find?_cons, this]
    rw [hsingle, Option.or_none]

/-! ### Phase 1 — direct lookup
(`ComponentTestHelper.renderComponent`, part_001 lines 594-741)

`refsMap.forEach((vnode, ref) => {...})`: for each collected (handle,
vnode) pair, in collection order, try fast-accept, then the ID strategy,
the data-attribute strategy and the class strategy.  Inside the callback,
`return` ends the processing of the current handle, so each strategy
either binds and stops, stops without binding, or falls through to the
next strategy. -/

/-- Outcome of one Phase-1 strategy for one handle. -/
inductive StageRes where
  | bind (st : RefStore)
  | halt
  | next

/-- Phase-1 context: the mount container and the full collected refs list
(`refsMap`), which the duplicate test iterates over. -/
structure P1Ctx where
  container : DNode
  allRefs : List (Nat × RVNode)

/-- `Array.from(refsMap.keys()).some(otherRef => otherRef !== ref && otherRef.instance === el)`. -/
def isAlreadyAssignedP1 (ctx : P1Ctx) (store : RefStore) (r : Nat) (el : DNode) : Bool :=
  ctx.allRefs.any (fun q => q.1 != r && getRef store q.1 == some el.nid)

/-- `sel = '#' + id` match: an element whose `id` attribute equals `idv`. -/
def matchesIdSel (idv : String) (n : DNode) : Bool :=
  n.isElem && getAttr n ("id") == some idv

/-- Tag-name comparison against an optional declared type (`'*'`/falsy
type matches anything; `el.tagName.toLowerCase() === type.toLowerCase()`
with lowercase-modelled tags otherwise). -/
def tagOk (ot : Option String) (n : DNode) : Bool :=
  match ot with
  | some t => n.tag == t
  | none => true

/-- The compound data selector `type[attr1="v1"][attr2="v2"]...` as a
node predicate. -/
def matchesDataSel (ot : Option String) (pairs : List (String × String)) (n : DNode) : Bool :=
  n.isElem && tagOk ot n && pairs.all (fun av => getAttr n av.1 == some av.2)

/-- The class selector `type.cls` / `.cls` as a node predicate. -/
def matchesClassSel (ot : Option String) (cls : String) (n : DNode) : Bool :=
  n.isElem && tagOk ot n && (classListOf n).contains cls

/-- Phase-1 fast accept (lines 599-609): skip the handle when its
`instance` is already a node contained by the container. -/
def phase1FastAccept (ctx : P1Ctx) (store : RefStore) (r : Nat) : Bool :=
  match getRef store r with
  | some i => containsNode ctx.container i
  | none => false

/-- Phase-1 Strategy 1 (lines 611-621): match by `id` via
`querySelector('#id')`; on a tag-compatible hit, bind and stop — with no
duplicate check. -/
def phase1IdStage (ctx : P1Ctx) (store : RefStore) (r : Nat) (v : RVNode) : StageRes :=
  match propId v with
  | none => .next
  | some idv =>
    match qsFirst ctx.container (matchesIdSel idv) with
    | none => .next
    | some found =>
      if tagOk (effType v) found then .bind (setRef store r (some found.nid)) else .next

/-- Phase-1 Strategy 1.5 (lines 623-681): when the handle's `instance` is
still unset, build the compound data-attribute selector and bind its first
match if it is tag-compatible, contained in the container, and not already
assigned to another handle; a match outside the container stops the
handle's processing. -/
def phase1DataStage (ctx : P1Ctx) (store : RefStore) (r : Nat) (v : RVNode) : StageRes :=
  if getRef store r != none then .next
  else
    let pairs := dataSelectorPairs v.props
    if pairs.isEmpty then .next
    else
      match qsFirst ctx.container (matchesDataSel (effType v) pairs) with
      | none => .next
      | some found =>
        if tagOk (effType v) found then
          if !(containsNode ctx.container found.nid) then .halt
          else if isAlreadyAssignedP1 ctx store r found then .next
          else .bind (setRef store r (some found.nid))
        else .next

/-- Phase-1 Strategy 2 (lines 683-737): class match — first token of the
declared class (string or object form) plus the tag, over
`querySelectorAll`; take the first hit that is tag-compatible, carries
every declared token when more than one was declared, and is not already
assigned; bind it when it is contained in the container. -/
def phase1ClassStage (ctx : P1Ctx) (store : RefStore) (r : Nat) (v : RVNode) : StageRes :=
  let cprop := propLookup v ("class")
  if !(classTruthy cprop) then .next
  else
    match cprop with
    | none => .next
    | some pv =>
      match classNamesOf pv with
      | [] => .next
      | primary :: restCls =>
        let found := (qsAll ctx.container (matchesClassSel (effType v) primary)).find?
          (fun el =>
            tagOk (effType v) el &&
            (decide ((primary :: restCls).length ≤ 1) ||
              (primary :: restCls).all (fun cn => (classListOf el).contains cn)) &&
            !(isAlreadyAssignedP1 ctx store r el))
        match found with
        | none => .next
        | some el =>
          if containsNode ctx.container el.nid then .bind (setRef store r (some el.nid))
          else .next

/-- One iteration of the Phase-1 `refsMap.forEach` callback. -/
def phase1Step (ctx : P1Ctx) (store : RefStore) (r : Nat) (v : RVNode) : RefStore :=
  if phase1FastAccept ctx store r then store
  else
    match phase1IdStage ctx store r v with
    | .bind st => st
    | .halt => store
    | .next =>
      match phase1DataStage ctx store r v with
      | .bind st => st
      | .halt => store
      | .next =>
        match phase1ClassStage ctx store r v with
        | .bind st => st
        | _ => store

/-- Phase 1: process every collected (handle, vnode) pair in order. -/
def phase1 (container : DNode) (refsList : List (Nat × RVNode)) (store0 : RefStore) : RefStore :=
  refsList.foldl (fun st q => phase1Step ⟨container, refsList⟩ st q.1 q.2) store0


/-! ### Phase 2 — structural fallback walk
(`reconcileRefs`, part_001 lines 284-514)

State: the handle store, the `matchedDomNodes` WeakSet (as a list of node
identities with set semantics), and — as pure instrumentation the
algorithm never reads — the list `p2bound` of handles assigned during the
walk.  `rootContainer` is always supplied (the caller passes
`this.container`), and the one mutable VNode field the walk also touches
(`vnode.instance`) carries no reference handle, so it is not part of the
state.  The walk recurses along matched children; the explicit `fuel`
argument bounds that recursion (the source recursion terminates because
the VNode tree is finite; all theorems hold for every fuel, and concrete
runs use fuel larger than the tree depth). -/

/-- Phase-2 state. -/
structure P2State where
  refs : RefStore
  matched : List Nat
  p2bound : List Nat

/-- `matchedDomNodes.add(i)` (set semantics). -/
def addMatched (l : List Nat) (i : Nat) : List Nat :=
  if l.contains i then l else i :: l

/-- `matchedDomNodes.delete(i)`. -/
def delMatched (l : List Nat) (i : Nat) : List Nat :=
  l.filter (fun x => x != i)

/-- Step 1 of `reconcileRefs` (lines 292-315): when this VNode carries a
handle whose `instance` is not already a node inside the root container,
and the current DOM node is not yet matched, bind the handle to the
current DOM node and mark it matched; then, when the VNode declares an
`id`, refine the binding to the container-wide ID match if that is a
different, not-yet-matched node (swapping the matched marks). -/
def bindStep (v : RVNode) (domNode : DNode) (root : DNode) (st : P2State) : P2State :=
  match v.refId with
  | none => st
  | some r =>
    let keep := match getRef st.refs r with
      | some i => containsNode root i
      | none => false
    if keep then st
    else if st.matched.contains domNode.nid then st
    else
      let st1 : P2State :=
        { refs := setRef st.refs r (some domNode.nid)
          matched := addMatched st.matched domNode.nid
          p2bound := r :: st.p2bound }
      match propId v with
      | none => st1
      | some idv =>
        match qsFirst root (matchesIdSel idv) with
        | none => st1
        | some found =>
          if found.nid != domNode.nid && !(st1.matched.contains found.nid) then
            { refs := setRef st1.refs r (some found.nid)
              matched := addMatched (delMatched st1.matched domNode.nid) found.nid
              p2bound := st1.p2bound }
          else st1

mutual
/-- `flattenChildren` (lines 325-339): flatten nested arrays, dropping
null/undefined and booleans. -/
def flattenChildren : List RChild → List RChild
  | [] => []
  | c :: cs => flattenOne c ++ flattenChildren cs
/-- One child's contribution to the flattened list. -/
def flattenOne : RChild → List RChild
  | .arr l => flattenChildren l
  | .nullv => []
  | .bval _ => []
  | .vn v => [.vn v]
  | .txt s => [.txt s]
  | .num n => [.num n]
end

/-- `domElementChildren.indexOf(el)` (identity-based; `none` models `-1`). -/
def idxOfNid (l : List DNode) (i : Nat) : Option Nat :=
  l.findIdx? (fun d => d.nid == i)

/-- The body of the Phase-2 child loop (lines 356-511) for one child, given
the recursive call `rec` for matched children.  The accumulator is
`(domElementIndex, domTextIndex, state)`; `domElems` are the non-text DOM
children of `domNode` and `numTexts` counts its text children. -/
def childStep (rec : RVNode → DNode → P2State → P2State)
    (root : DNode) (domNode : DNode) (domElems : List DNode) (numTexts : Nat)
    (acc : Nat × Nat × P2State) (c : RChild) : Nat × Nat × P2State :=
  let elemIdx := acc.1
  let textIdx := acc.2.1
  let st := acc.2.2
  match c with
  | .nullv => acc
  | .bval _ => acc
  | .arr _ => acc
  | .txt _ => if textIdx < numTexts then (elemIdx, textIdx + 1, st) else acc
  | .num _ => if textIdx < numTexts then (elemIdx, textIdx + 1, st) else acc
  | .vn v =>
    match effType v with
    | none => acc
    | some t =>
      -- Strategy 1: positional match by tag name
      let s1 : Option (DNode × Option Nat) :=
        match domElems.get? elemIdx with
        | some cand => if cand.tag == t then some (cand, some elemIdx) else none
        | none => none
      -- Strategy 2: ID match against the whole root container
      let s2 : Option (DNode × Option Nat) :=
        match s1 with
        | some x => some x
        | none =>
          match propId v with
          | none => none
          | some idv =>
            match qsFirst root (matchesIdSel idv) with
            | none => none
            | some found =>
              if containsNode domNode found.nid then some (found, idxOfNid domElems found.nid)
              else none
      -- Strategy 2.5: data-attribute match
      let s25 : Option (DNode × Option Nat) :=
        match s2 with
        | some x => some x
        | none =>
          let pairs := dataSelectorPairs v.props
          if pairs.isEmpty then none
          else
            match qsFirst root (matchesDataSel (some t) pairs) with
            | none => none
            | some found =>
              if containsNode domNode found.nid then
                if tagOk (some t) found then
                  if !(st.matched.contains found.nid) then
                    match idxOfNid domElems found.nid with
                    | some k => some (found, some k)
                    | none => none
                  else none
                else none
              else none
      -- Strategy 3: class match within the current subtree
      let s3 : Option (DNode × Option Nat) :=
        match s25 with
        | some x => some x
        | none =>
          if !domNode.isElem then none
          else
            let cprop := propLookup v ("class")
            if !(classTruthy cprop) then none
            else
              match cprop with
              | none => none
              | some pv =>
                match classNamesOf pv with
                | [] => none
                | primary :: _ =>
                  let found := (qsAll domNode (matchesClassSel (some t) primary)).find?
                    (fun el =>
                      tagOk (some t) el &&
                      (match parentIn domNode el.nid with
                       | some pp => pp == domNode.nid || containsNode domNode pp
                       | none => false) &&
                      !(st.matched.contains el.nid))
                  match found with
                  | none => none
                  | some el =>
                    match idxOfNid domElems el.nid with
                    | some k => some (el, some k)
                    | none => none
      match s3 with
      | some (md, some k) => (k + 1, textIdx, rec v md st)
      | _ =>
        match domElems.get? elemIdx with
        | none => acc
        | some fb =>
          if fb.tag == t then (elemIdx + 1, textIdx, rec v fb st)
          else acc

/-- `reconcileRefs(vnode, domNode, rootContainer, matchedDomNodes)`:
the step-1 binding, then the child loop over the flattened children
against the DOM node's element children. -/
def reconcileRefs : Nat → RVNode → DNode → DNode → P2State → P2State
  | 0, _, _, _, st => st
  | fuel + 1, v, domNode, root, st =>
    let st1 := bindStep v domNode root st
    if domNode.isElem then
      let vcs := flattenChildren v.childrenOf
      if vcs.isEmpty then st1
      else
        let allDom := domNode.childrenOf
        let domElems := allDom.filter (fun n => n.isElem)
        let numTexts := (allDom.filter (fun n => !n.isElem)).length
        (vcs.foldl
          (childStep (fun w d s => reconcileRefs fuel w d root s) root domNode domElems numTexts)
          (0, 0, st1)).2.2
    else st1

/-! ### The two phases composed
(`renderComponent`, part_001 lines 529-756) -/

mutual
/-- `collectRefs` (lines 550-567): pre-order collection of (handle, vnode)
pairs — the handle of this VNode, then the children left to right. -/
def collectPairsV : RVNode → List (Nat × RVNode)
  | .mk t r pr cs =>
    (match r with
     | some rid => [(rid, .mk t r pr cs)]
     | none => []) ++ collectPairsL cs
def collectPairsL : List RChild → List (Nat × RVNode)
  | [] => []
  | c :: cs => collectPairsC c ++ collectPairsL cs
def collectPairsC : RChild → List (Nat × RVNode)
  | .vn v => collectPairsV v
  | .arr l => collectPairsL l
  | .txt _ => []
  | .num _ => []
  | .bval _ => []
  | .nullv => []
end

/-- JS `Map.set`: keep the key's first-insertion position, overwrite its
value; append new keys. -/
def mapSet (l : List (Nat × RVNode)) (k : Nat) (v : RVNode) : List (Nat × RVNode) :=
  if l.any (fun p => p.1 == k) then l.map (fun p => if p.1 == k then (k, v) else p)
  else l ++ [(k, v)]

/-- The `refsMap` in collection order. -/
def collectRefs (v : RVNode) : List (Nat × RVNode) :=
  (collectPairsV v).foldl (fun acc p => mapSet acc p.1 p.2) []

/-- `container.firstElementChild`. -/
def firstElementChild (c : DNode) : Option DNode :=
  c.childrenOf.find? (fun n => n.isElem)

/-- The reconciliation part of `renderComponent`: collect the refs, run
Phase 1 over the container, then run Phase 2 from the container's first
element child with a fresh matched set. -/
def renderReconcile (fuel : Nat) (v : RVNode) (container : DNode) (store0 : RefStore) :
    P2State :=
  let refsList := collectRefs v
  let afterP1 := phase1 container refsList store0
  match firstElementChild container with
  | none => ⟨afterP1, [], []⟩
  | some el => reconcileRefs fuel v el container ⟨afterP1, [], []⟩


/-! ### Preservation: a handle whose instance is already inside the
container is never reassigned (claims C4, and used to carry Phase-1
results through Phase 2). -/

theorem phase1IdStage_bind (ctx : P1Ctx) (store : RefStore) (r : Nat) (v : RVNode)
    (st' : RefStore) (h : phase1IdStage ctx store r v = .bind st') :
    ∃ n, st' = setRef store r (some n) := by
  simp only [phase1IdStage] at h
  split at h
  · exact absurd h (by simp)
  · split at h
    · exact absurd h (by simp)
    · split at h
      · cases h
        exact ⟨_, rfl⟩
      · exact absurd h (by simp)

theorem phase1DataStage_bind (ctx : P1Ctx) (store : RefStore) (r : Nat) (v : RVNode)
    (st' : RefStore) (h : phase1DataStage ctx store r v = .bind st') :
    ∃ n, st' = setRef store r (some n) := by
  simp only [phase1DataStage] at h
  split at h
  · exact absurd h (by simp)
  · split at h
    · exact absurd h (by simp)
    · split at h
      · exact absurd h (by simp)
      · split at h
        · split at h
          · exact absurd h (by simp)
          · split at h
            · exact absurd h (by simp)
            · cases h
              exact ⟨_, rfl⟩
        · exact absurd h (by simp)

theorem phase1ClassStage_bind (ctx : P1Ctx) (store : RefStore) (r : Nat) (v : RVNode)
    (st' : RefStore) (h : phase1ClassStage ctx store r v = .bind st') :
    ∃ n, st' = setRef store r (some n) := by
  simp only [phase1ClassStage] at h
  split at h
  · exact absurd h (by simp)
  · split at h
    · exact absurd h (by simp)
    · split at h
      · exact absurd h (by simp)
      · split at h
        · exact absurd h (by simp)
        · split at h
          · cases h
            exact ⟨_, rfl⟩
          · exact absurd h (by simp)

theorem phase1Step_outcomes (ctx : P1Ctx) (store : RefStore) (r : Nat) (v : RVNode) :
    phase1Step ctx store r v = store ∨
      ∃ n, phase1Step ctx store r v = setRef store r (some n) := by
  unfold phase1Step
  split
  · exact Or.inl rfl
  · split
    case _ heq =>
      rcases phase1IdStage_bind ctx store r v _ heq with ⟨n, hn⟩
      exact Or.inr ⟨n, by rw [hn]⟩
    case _ => exact Or.inl rfl
    case _ =>
      split
      case _ heq =>
        rcases phase1DataStage_bind ctx store r v _ heq with ⟨n, hn⟩
        exact Or.inr ⟨n, by rw [hn]⟩
      case _ => exact Or.inl rfl
      case _ =>
        split
        case _ heq =>
          rcases phase1ClassStage_bind ctx store r v _ heq with ⟨n, hn⟩
          exact Or.inr ⟨n, by rw [hn]⟩
        case _ => exact Or.inl rfl

theorem phase1Step_preserves (ctx : P1Ctx) (store : RefStore) (q r0 i : Nat) (v : RVNode)
    (h0 : getRef store r0 = some i) (hc : containsNode ctx.container i = true) :
    getRef (phase1Step ctx store q v) r0 = some i := by
  by_cases hq : q = r0
  · subst hq
    have hfa : phase1FastAccept ctx store q = true := by
      unfold phase1FastAccept
      rw [h0]
      exact hc
    unfold phase1Step
    rw [if_pos hfa]
    exact h0
  · rcases phase1Step_outcomes ctx store q v with h | ⟨n, hn⟩
    · rw [h]
      exact h0
    · rw [hn, getRef_setRef_ne _ _ _ _ (fun hh => hq hh.symm)]
      exact h0

theorem phase1_preserves (container : DNode) (refsList : List (Nat × RVNode))
    (store : RefStore) (r0 i : Nat)
    (h0 : getRef store r0 = some i) (hc : containsNode container i = true) :
    getRef (phase1 container refsList store) r0 = some i := by
  unfold phase1
  have : ∀ (l : List (Nat × RVNode)) (st : RefStore), getRef st r0 = some i →
      getRef (l.foldl (fun st q => phase1Step ⟨container, refsList⟩ st q.1 q.2) st) r0 =
        some i := by
    intro l
    induction l with
    | nil => intro st h; exact h
    | cons q qs ih =>
      intro st h
      exact ih _ (phase1Step_preserves ⟨container, refsList⟩ st q.1 r0 i q.2 h hc)
  exact this refsList store h0

theorem bindStep_preserves (v : RVNode) (domNode root : DNode) (st : P2State) (r0 i : Nat)
    (h0 : getRef st.refs r0 = some i) (hc : containsNode root i = true) :
    getRef (bindStep v domNode root st).refs r0 = some i := by
  simp only [bindStep]
  split
  · exact h0
  case _ r heq =>
    by_cases hq : r = r0
    · subst hq
      simp [h0, hc]
    · have hne : r0 ≠ r := fun hh => hq hh.symm
      split
      · exact h0
      · split
        · exact h0
        · repeat' split
          all_goals try dsimp only
          all_goals repeat rw [getRef_setRef_ne _ _ _ _ hne]
          all_goals exact h0

theorem childStep_preserves (rec : RVNode → DNode → P2State → P2State)
    (root domNode : DNode) (domElems : List DNode) (numTexts : Nat)
    (acc : Nat × Nat × P2State) (c : RChild) (r0 i : Nat)
    (hrec : ∀ (w : RVNode) (d : DNode) (s : P2State), getRef s.refs r0 = some i →
      getRef (rec w d s).refs r0 = some i)
    (h0 : getRef acc.2.2.refs r0 = some i) :
    getRef (childStep rec root domNode domElems numTexts acc c).2.2.refs r0 = some i := by
  rcases c with w | sx | nx | bx | _ | lx
  case vn =>
    simp only [childStep]
    repeat' split
    all_goals try dsimp only
    all_goals first
      | exact h0
      | exact hrec _ _ _ h0
  all_goals simp only [childStep]
  all_goals repeat' split
  all_goals try dsimp only
  all_goals exact h0

theorem reconcileRefs_preserves (fuel : Nat) (v : RVNode) (domNode root : DNode)
    (st : P2State) (r0 i : Nat)
    (h0 : getRef st.refs r0 = some i) (hc : containsNode root i = true) :
    getRef (reconcileRefs fuel v domNode root st).refs r0 = some i := by
  induction fuel generalizing v domNode st with
  | zero => exact h0
  | succ fuel ih =>
    simp only [reconcileRefs]
    have h1 := bindStep_preserves v domNode root st r0 i h0 hc
    split
    · split
      · exact h1
      · have hfold : ∀ (l : List RChild) (acc : Nat × Nat × P2State),
            getRef acc.2.2.refs r0 = some i →
            getRef ((l.foldl
              (childStep (fun w d s => reconcileRefs fuel w d root s) root domNode
                (domNode.childrenOf.filter (fun n => n.isElem))
                ((domNode.childrenOf.filter (fun n => !n.isElem)).length))
              acc).2.2).refs r0 = some i := by
          intro l
          induction l with
          | nil => intro acc h; exact h
          | cons c cs ihl =>
            intro acc h
            exact ihl _ (childStep_preserves _ _ _ _ _ acc c r0 i
              (fun w d s hs => ih w d s hs) h)
        exact hfold _ (0, 0, bindStep v domNode root st) h1
    · exact h1

/-- C4: a reference handle whose `instance` already refers to a node
contained in the mount container before reconciliation runs is left
unchanged by the whole pass — Phase 1 fast-accepts it (and other handles
only ever write their own instance fields), and the Phase-2 walk's
preserve check skips it at every node. -/
theorem reconcile_preserves_contained_refs (fuel : Nat) (v : RVNode) (container : DNode)
    (store0 : RefStore) (r0 i : Nat)
    (h0 : getRef store0 r0 = some i) (hc : containsNode container i = true) :
    getRef (renderReconcile fuel v container store0).refs r0 = some i := by
  unfold renderReconcile
  have h1 := phase1_preserves container (collectRefs v) store0 r0 i h0 hc
  split
  · exact h1
  · exact reconcileRefs_preserves fuel v _ container ⟨_, [], []⟩ r0 i h1 hc

/-- Witness for `reconcile_preserves_contained_refs`: a handle already
bound to the mounted span keeps it through the whole pass. -/
theorem reconcile_preserves_contained_refs_witness :
    getRef [(7, some 2)] 7 = some 2 ∧
      containsNode (DNode.elem 0 ("div") [] [.elem 1 ("div") [] [.elem 2 ("span") [] []]]) 2 =
        true ∧
      getRef (renderReconcile 5 (.mk (some ("span")) (some 7) [] [])
        (DNode.elem 0 ("div") [] [.elem 1 ("div") [] [.elem 2 ("span") [] []]])
        [(7, some 2)]).refs 7 = some 2 :=
  ⟨by decide, by decide,
    reconcile_preserves_contained_refs 5 (.mk (some ("span")) (some 7) [] [])
      (DNode.elem 0 ("div") [] [.elem 1 ("div") [] [.elem 2 ("span") [] []]])
      [(7, some 2)] 7 2 (by decide) (by decide)⟩


/-! ### Phase-2 duplicate prevention (claim C1)

The walk's matched-node set guards every Phase-2 assignment, so handles
bound during the walk hold pairwise-distinct nodes.  The invariant: every
walk-bound handle holds a node in the matched set, and walk-bound handles
are injective. -/

/-- The Phase-2 invariant. -/
def InvP2 (st : P2State) : Prop :=
  (∀ r ∈ st.p2bound, ∃ n, getRef st.refs r = some n ∧ n ∈ st.matched) ∧
  (∀ r1 ∈ st.p2bound, ∀ r2 ∈ st.p2bound, r1 ≠ r2 →
    getRef st.refs r1 ≠ getRef st.refs r2)

theorem mem_addMatched (l : List Nat) (i x : Nat) :
    x ∈ addMatched l i ↔ x = i ∨ x ∈ l := by
  by_cases h : l.contains i = true
  · simp only [addMatched]
    rw [if_pos h]
    constructor
    · exact Or.inr
    · rintro (rfl | hx)
      · simpa using h
      · exact hx
  · simp only [addMatched]
    rw [if_neg h]
    simp [List.mem_cons]

theorem mem_delMatched (l : List Nat) (i x : Nat) :
    x ∈ delMatched l i ↔ x ∈ l ∧ x ≠ i := by
  simp [delMatched]

theorem inv_write (st : P2State) (r d : Nat) (hinv : InvP2 st) (hd : d ∉ st.matched) :
    InvP2 ⟨setRef st.refs r (some d), addMatched st.matched d, r :: st.p2bound⟩ := by
  rcases hinv with ⟨hi, hii⟩
  constructor
  · intro r' hr'
    by_cases hq : r' = r
    · subst hq
      exact ⟨d, getRef_setRef_self _ _ _, (mem_addMatched _ _ _).mpr (Or.inl rfl)⟩
    · have hr'' : r' ∈ st.p2bound := by
        rcases List.mem_cons.mp hr' with h | h
        · exact absurd h hq
        · exact h
      rcases hi r' hr'' with ⟨n, hn, hm⟩
      exact ⟨n, by rw [getRef_setRef_ne _ _ _ _ hq]; exact hn,
        (mem_addMatched _ _ _).mpr (Or.inr hm)⟩
  · intro r1 h1 r2 h2 hne
    by_cases hq1 : r1 = r
    · subst hq1
      have hq2 : r2 ≠ r1 := fun hh => hne hh.symm
      have hr2 : r2 ∈ st.p2bound := by
        rcases List.mem_cons.mp h2 with h | h
        · exact absurd h hq2
        · exact h
      rcases hi r2 hr2 with ⟨n2, hn2, hm2⟩
      rw [getRef_setRef_self, getRef_setRef_ne _ _ _ _ hq2, hn2]
      intro hcontra
      have : n2 = d := by
        have := hcontra.symm
        simpa using this
      exact hd (this ▸ hm2)
    · by_cases hq2 : r2 = r
      · subst hq2
        have hr1 : r1 ∈ st.p2bound := by
          rcases List.mem_cons.mp h1 with h | h
          · exact absurd h hq1
          · exact h
        rcases hi r1 hr1 with ⟨n1, hn1, hm1⟩
        rw [getRef_setRef_self, getRef_setRef_ne _ _ _ _ hq1, hn1]
        intro hcontra
        have : n1 = d := by simpa using hcontra
        exact hd (this ▸ hm1)
      · have hr1 : r1 ∈ st.p2bound := by
          rcases List.mem_cons.mp h1 with h | h
          · exact absurd h hq1
          · exact h
        have hr2 : r2 ∈ st.p2bound := by
          rcases List.mem_cons.mp h2 with h | h
          · exact absurd h hq2
          · exact h
        rw [getRef_setRef_ne _ _ _ _ hq1, getRef_setRef_ne _ _ _ _ hq2]
        exact hii r1 hr1 r2 hr2 hne

theorem inv_refine (st : P2State) (r d f : Nat) (hinv : InvP2 st)
    (hr : r ∈ st.p2bound) (hrd : getRef st.refs r = some d)
    (hf : f ∉ st.matched) :
    InvP2 ⟨setRef st.refs r (some f), addMatched (delMatched st.matched d) f,
      st.p2bound⟩ := by
  rcases hinv with ⟨hi, hii⟩
  constructor
  · intro r' hr'
    by_cases hq : r' = r
    · subst hq
      exact ⟨f, getRef_setRef_self _ _ _, (mem_addMatched _ _ _).mpr (Or.inl rfl)⟩
    · rcases hi r' hr' with ⟨n', hn', hm'⟩
      have hnd : n' ≠ d := by
        intro hh
        subst hh
        exact hii r' hr' r hr hq (by rw [hn', hrd])
      exact ⟨n', by rw [getRef_setRef_ne _ _ _ _ hq]; exact hn',
        (mem_addMatched _ _ _).mpr (Or.inr ((mem_delMatched _ _ _).mpr ⟨hm', hnd⟩))⟩
  · intro r1 h1 r2 h2 hne
    by_cases hq1 : r1 = r
    · subst hq1
      have hq2 : r2 ≠ r1 := fun hh => hne hh.symm
      rcases hi r2 h2 with ⟨n2, hn2, hm2⟩
      rw [getRef_setRef_self, getRef_setRef_ne _ _ _ _ hq2, hn2]
      intro hcontra
      have : n2 = f := by simpa using hcontra.symm
      exact hf (this ▸ hm2)
    · by_cases hq2 : r2 = r
      · subst hq2
        rcases hi r1 h1 with ⟨n1, hn1, hm1⟩
        rw [getRef_setRef_self, getRef_setRef_ne _ _ _ _ hq1, hn1]
        intro hcontra
        have : n1 = f := by simpa using hcontra
        exact hf (this ▸ hm1)
      · rw [getRef_setRef_ne _ _ _ _ hq1, getRef_setRef_ne _ _ _ _ hq2]
        exact hii r1 h1 r2 h2 hne

theorem bindStep_inv (v : RVNode) (domNode root : DNode) (st : P2State)
    (hinv : InvP2 st) : InvP2 (bindStep v domNode root st) := by
  simp only [bindStep]
  split
  · exact hinv
  case _ r heq =>
    split
    · exact hinv
    · split
      · exact hinv
      case _ hnm =>
        have hd : domNode.nid ∉ st.matched := by
          intro hmem
          exact hnm (by simpa using hmem)
        have hst1 := inv_write st r domNode.nid hinv hd
        split
        · exact hst1
        · split
          · exact hst1
          case _ found heq2 =>
            split
            case _ hcond =>
              have hf : found.nid ∉ addMatched st.matched domNode.nid := by
                intro hmem
                have := (Bool.and_eq_true _ _).mp hcond
                exact (by simpa using this.2 : ¬ _) (by simpa using hmem)
              exact inv_refine _ r domNode.nid found.nid hst1
                (List.mem_cons_self _ _) (getRef_setRef_self _ _ _) hf
            · exact hst1

theorem childStep_inv (rec : RVNode → DNode → P2State → P2State)
    (root domNode : DNode) (domElems : List DNode) (numTexts : Nat)
    (acc : Nat × Nat × P2State) (c : RChild)
    (hrec : ∀ (w : RVNode) (d : DNode) (s : P2State), InvP2 s → InvP2 (rec w d s))
    (h0 : InvP2 acc.2.2) :
    InvP2 (childStep rec root domNode domElems numTexts acc c).2.2 := by
  rcases c with w | sx | nx | bx | _ | lx
  case vn =>
    simp only [childStep]
    repeat' split
    all_goals try dsimp only
    all_goals first
      | exact h0
      | exact hrec _ _ _ h0
  all_goals simp only [childStep]
  all_goals repeat' split
  all_goals try dsimp only
  all_goals exact h0

theorem reconcileRefs_inv (fuel : Nat) (v : RVNode) (domNode root : DNode)
    (st : P2State) (hinv : InvP2 st) :
    InvP2 (reconcileRefs fuel v domNode root st) := by
  induction fuel generalizing v domNode st with
  | zero => exact hinv
  | succ fuel ih =>
    simp only [reconcileRefs]
    have h1 := bindStep_inv v domNode root st hinv
    split
    · split
      · exact h1
      · have hfold : ∀ (l : List RChild) (acc : Nat × Nat × P2State), InvP2 acc.2.2 →
            InvP2 ((l.foldl
              (childStep (fun w d s => reconcileRefs fuel w d root s) root domNode
                (domNode.childrenOf.filter (fun n => n.isElem))
                ((domNode.childrenOf.filter (fun n => !n.isElem)).length))
              acc).2.2) := by
          intro l
          induction l with
          | nil => intro acc h; exact h
          | cons c cs ihl =>
            intro acc h
            exact ihl _ (childStep_inv _ _ _ _ _ acc c (fun w d s hs => ih w d s hs) h)
        exact hfold _ (0, 0, bindStep v domNode root st) h1
    · exact h1

/-- C1 amended: within one reconciliation pass, the Phase-2 walk never
binds two different handles to the same DOM node — starting from the
fresh state `renderComponent` creates (empty matched set, nothing yet
bound by the walk), any two distinct handles that the walk assigned (the
instrumented `p2bound` list) hold distinct nodes, because every Phase-2
assignment is guarded by the `matchedDomNodes` set.  (The full claim over
both phases is false: Phase 1's ID strategy and fast-accept have no
duplicate guard — see the counterexample.) -/
theorem recon_phase2_no_duplicate_binding (fuel : Nat) (v : RVNode)
    (domNode root : DNode) (st : P2State) (h0 : st.p2bound = [])
    (r1 r2 : Nat)
    (h1 : r1 ∈ (reconcileRefs fuel v domNode root st).p2bound)
    (h2 : r2 ∈ (reconcileRefs fuel v domNode root st).p2bound)
    (hne : r1 ≠ r2) :
    getRef (reconcileRefs fuel v domNode root st).refs r1 ≠
      getRef (reconcileRefs fuel v domNode root st).refs r2 := by
  have hinv0 : InvP2 st := by
    constructor
    · intro r hr
      rw [h0] at hr
      exact absurd hr (List.not_mem_nil _)
    · intro r hr
      rw [h0] at hr
      exact absurd hr (List.not_mem_nil _)
  exact (reconcileRefs_inv fuel v domNode root st hinv0).2 r1 h1 r2 h2 hne

/-- Two sibling spans with unresolved handles, for the C1 witness. -/
def c1wTree : RVNode :=
  .mk (some ("div")) none []
    [.vn (.mk (some ("span")) (some 1) [] []),
     .vn (.mk (some ("span")) (some 2) [] [])]

/-- The mounted DOM for the C1 witness. -/
def c1wDom : DNode :=
  .elem 1 ("div") [] [.elem 2 ("span") [] [], .elem 3 ("span") [] []]

/-- The mount container for the C1 witness. -/
def c1wRoot : DNode := .elem 0 ("div") [] [c1wDom]

/-- Witness for `recon_phase2_no_duplicate_binding`: both handles are
bound by the Phase-2 walk (positional matches) and end on distinct spans. -/
theorem recon_phase2_no_duplicate_binding_witness :
    1 ∈ (reconcileRefs 5 c1wTree c1wDom c1wRoot
        ⟨[(1, none), (2, none)], [], []⟩).p2bound ∧
      2 ∈ (reconcileRefs 5 c1wTree c1wDom c1wRoot
        ⟨[(1, none), (2, none)], [], []⟩).p2bound ∧
      getRef (reconcileRefs 5 c1wTree c1wDom c1wRoot
        ⟨[(1, none), (2, none)], [], []⟩).refs 1 ≠
        getRef (reconcileRefs 5 c1wTree c1wDom c1wRoot
          ⟨[(1, none), (2, none)], [], []⟩).refs 2 :=
  ⟨by decide, by decide,
    recon_phase2_no_duplicate_binding 5 c1wTree c1wDom c1wRoot
      ⟨[(1, none), (2, none)], [], []⟩ rfl 1 2 (by decide) (by decide) (by decide)⟩

/-- A tree whose two referenced spans declare the same `id`. -/
def c1Tree : RVNode :=
  .mk (some ("div")) none []
    [.vn (.mk (some ("span")) (some 1) [(("id"), .str ("x"))] []),
     .vn (.mk (some ("span")) (some 2) [(("id"), .str ("x"))] [])]

/-- The mounted DOM for the C1 counterexample: the container holds the
rendered root div with the two spans, both with `id="x"`. -/
def c1Container : DNode :=
  .elem 0 ("div") []
    [.elem 1 ("div") []
      [.elem 10 ("span") [(("id"), ("x"))] [],
       .elem 11 ("span") [(("id"), ("x"))] []]]

/-- C1 counterexample: after the full pass (Phase 1 then Phase 2), the two
distinct handles 1 and 2 are both bound to the same DOM node (the first
`span#x`, identity 10): Phase 1's ID strategy binds each of them to
`querySelector('#x')` with no duplicate check, and Phase 2's preserve
check then keeps both.  So the claim's invariant fails as stated over all
trees. -/
theorem recon_duplicate_id_collision_cex :
    getRef (renderReconcile 6 c1Tree c1Container [(1, none), (2, none)]).refs 1 = some 10 ∧
      getRef (renderReconcile 6 c1Tree c1Container [(1, none), (2, none)]).refs 2 = some 10 := by
  constructor <;> decide


/-! ### Claim C2: data-attribute binding of same-class siblings

The scenario family: `N` sibling `circle` elements inside one `svg`, all
with class `ring`, the `i`-th carrying `data-range` value `vals[i]`
(pairwise distinct), and one pre-created handle per circle (handle `i` on
the `i`-th circle's VNode, whose props declare the same class and value).
Node identities: container 0, svg 1, circle `i` is `2 + i`. -/

/-- Index a list from `s` (the enumeration used to build the scenario). -/
def idxFrom : Nat → List String → List (Nat × String)
  | _, [] => []
  | s, v :: vs => (s, v) :: idxFrom (s + 1) vs

/-- The VNode of the `h`-th circle. -/
def c2CircleV (h : Nat) (v : String) : RVNode :=
  .mk (some ("circle")) (some h)
    [(("class"), .str ("ring")), (("data-range"), .str v)] []

/-- The mounted DOM node of the `i`-th circle. -/
def c2CircleD (i : Nat) (v : String) : DNode :=
  .elem (2 + i) ("circle") [(("class"), ("ring")), (("data-range"), v)] []

/-- The component's VNode tree: an `svg` with one circle VNode per value. -/
def c2TreeOf (vals : List String) : RVNode :=
  .mk (some ("svg")) none []
    ((idxFrom 0 vals).map (fun p => .vn (c2CircleV p.1 p.2)))

/-- The circles as mounted. -/
def c2Circles (vals : List String) : List DNode :=
  (idxFrom 0 vals).map (fun p => c2CircleD p.1 p.2)

/-- The mount container: `div > svg > circles`. -/
def c2ContainerOf (vals : List String) : DNode :=
  .elem 0 ("div") [] [.elem 1 ("svg") [] (c2Circles vals)]

/-- The collected refs list of the scenario. -/
def c2Pairs (vals : List String) : List (Nat × RVNode) :=
  (idxFrom 0 vals).map (fun p => (p.1, c2CircleV p.1 p.2))

theorem idxFrom_fst_ge (l : List String) : ∀ (s : Nat) (p : Nat × String),
    p ∈ idxFrom s l → s ≤ p.1 := by
  induction l with
  | nil => intro s p hp; exact absurd hp (List.not_mem_nil _)
  | cons v vs ih =>
    intro s p hp
    rcases List.mem_cons.mp hp with rfl | hp
    · exact le_refl _
    · exact le_trans (Nat.le_succ s) (ih (s + 1) p hp)

theorem idxFrom_fst_nodup (l : List String) : ∀ s : Nat,
    ((idxFrom s l).map Prod.fst).Nodup := by
  induction l with
  | nil => intro s; simp [idxFrom]
  | cons v vs ih =>
    intro s
    simp only [idxFrom, List.map_cons, List.nodup_cons]
    refine ⟨?_, ih (s + 1)⟩
    intro hmem
    rcases List.mem_map.mp hmem with ⟨p, hp, hps⟩
    have := idxFrom_fst_ge vs (s + 1) p hp
    omega

theorem collectPairsL_c2 (l : List (Nat × String)) :
    collectPairsL (l.map (fun p => .vn (c2CircleV p.1 p.2))) =
      l.map (fun p => (p.1, c2CircleV p.1 p.2)) := by
  induction l with
  | nil => rfl
  | cons p ps ih =>
    simp only [List.map_cons, collectPairsL, collectPairsC, collectPairsV, c2CircleV,
      List.append_nil, List.nil_append, List.cons_append]
    simp only [c2CircleV] at ih
    rw [ih]

theorem foldl_mapSet_append (l : List (Nat × RVNode)) : ∀ acc : List (Nat × RVNode),
    (∀ k ∈ l.map Prod.fst, k ∉ acc.map Prod.fst) → (l.map Prod.fst).Nodup →
    l.foldl (fun a p => mapSet a p.1 p.2) acc = acc ++ l := by
  induction l with
  | nil => intro acc _ _; simp
  | cons q qs ih =>
    intro acc hdisj hnd
    rw [List.map_cons, List.nodup_cons] at hnd
    have hq : q.1 ∉ acc.map Prod.fst := hdisj q.1 (by simp)
    have hanyf : ¬ (acc.any (fun p => p.1 == q.1)) = true := by
      intro hA
      rcases List.any_eq_true.mp hA with ⟨x, hx, hxq⟩
      exact hq (List.mem_map.mpr ⟨x, hx, by simpa using hxq⟩)
    have hstep : mapSet acc q.1 q.2 = acc ++ [q] := by
      simp only [mapSet]
      rw [if_neg hanyf]
    simp only [List.foldl_cons, hstep]
    rw [ih (acc ++ [q]) ?_ ?_]
    · simp
    · intro k hk
      simp only [List.map_append, List.mem_append, List.map_cons, List.map_nil]
      rintro (hca | hcq)
      · exact hdisj k (by simp [hk]) hca
      · simp only [List.mem_singleton] at hcq
        subst hcq
        exact hnd.1 hk
    · exact hnd.2

theorem collectRefs_c2 (vals : List String) :
    collectRefs (c2TreeOf vals) = c2Pairs vals := by
  have h1 : collectPairsV (c2TreeOf vals) = c2Pairs vals := by
    simp only [c2TreeOf, collectPairsV, c2Pairs]
    rw [collectPairsL_c2]
    simp
  simp only [collectRefs, h1]
  have hkeys : (c2Pairs vals).map Prod.fst = (idxFrom 0 vals).map Prod.fst := by
    simp [c2Pairs, List.map_map]
  rw [foldl_mapSet_append (c2Pairs vals) [] (by simp) (by rw [hkeys]; exact idxFrom_fst_nodup vals 0)]
  simp

theorem descendList_circles (l : List (Nat × String)) :
    descendList (l.map (fun p => c2CircleD p.1 p.2)) = l.map (fun p => c2CircleD p.1 p.2) := by
  induction l with
  | nil => rfl
  | cons p ps ih =>
    simp only [List.map_cons, descendList, selfAnd, c2CircleD, List.cons_append,
      List.nil_append, List.append_nil]
    simp only [c2CircleD] at ih
    rw [ih]

theorem descendants_c2 (vals : List String) :
    (c2ContainerOf vals).descendants =
      DNode.elem 1 ("svg") [] (c2Circles vals) :: c2Circles vals := by
  simp only [c2ContainerOf, DNode.descendants, DNode.childrenOf, descendList, selfAnd,
    c2Circles]
  rw [descendList_circles]
  simp

theorem matchesDataSel_circle_eq (t w : String) (j : Nat) :
    matchesDataSel (some ("circle")) [(("data-range"), t)] (c2CircleD j w) = (w == t) := by
  simp only [matchesDataSel, c2CircleD, DNode.isElem, tagOk, DNode.tag, List.all_cons,
    List.all_nil, getAttr]
  simp [List.find?_cons]

theorem find_circle (v : String) : ∀ (l1 l2 : List String) (s : Nat),
    (l1 ++ v :: l2).Nodup →
    ((idxFrom s (l1 ++ v :: l2)).map (fun p => c2CircleD p.1 p.2)).find?
      (matchesDataSel (some ("circle")) [(("data-range"), v)]) =
      some (c2CircleD (s + l1.length) v) := by
  intro l1
  induction l1 with
  | nil =>
    intro l2 s hnd
    simp only [List.nil_append, idxFrom, List.map_cons]
    have hpos : matchesDataSel (some ("circle")) [(("data-range"), v)] (c2CircleD s v) = true := by
      rw [matchesDataSel_circle_eq]
      simp
    rw [List.find?_cons_of_pos _ hpos]
    simp
  | cons w l1 ih =>
    intro l2 s hnd
    simp only [List.cons_append, idxFrom, List.map_cons]
    have hwv : w ≠ v := by
      rcases List.nodup_cons.mp hnd with ⟨hnotin, _⟩
      intro hh
      subst hh
      exact hnotin (by simp)
    have hneg : ¬ matchesDataSel (some ("circle")) [(("data-range"), v)] (c2CircleD s w) = true := by
      rw [matchesDataSel_circle_eq]
      simpa using hwv
    rw [List.find?_cons_of_neg _ hneg]
    simp only [List.append_eq]
    rw [ih l2 (s + 1) (List.nodup_cons.mp hnd).2]
    have harith : s + 1 + l1.length = s + (w :: l1).length := by
      simp only [List.length_cons]
      omega
    rw [harith]


theorem c2_qsFirst (vals l1 l2 : List String) (v : String) (hnd : vals.Nodup)
    (hsplit : vals = l1 ++ v :: l2) :
    qsFirst (c2ContainerOf vals) (matchesDataSel (some ("circle")) [(("data-range"), v)]) =
      some (c2CircleD l1.length v) := by
  simp only [qsFirst, descendants_c2]
  have hsvg : ¬ matchesDataSel (some ("circle")) [(("data-range"), v)]
      (DNode.elem 1 ("svg") [] (c2Circles vals)) = true := by
    intro hcontra
    simp [matchesDataSel, tagOk, DNode.tag, DNode.isElem] at hcontra
  rw [List.find?_cons_of_neg _ hsvg]
  simp only [c2Circles, hsplit]
  have := find_circle v l1 l2 0 (hsplit ▸ hnd)
  rw [this]
  simp

theorem c2_contains (vals l1 l2 : List String) (v : String) (hnd : vals.Nodup)
    (hsplit : vals = l1 ++ v :: l2) :
    containsNode (c2ContainerOf vals) (2 + l1.length) = true := by
  have hq := c2_qsFirst vals l1 l2 v hnd hsplit
  have hmem : c2CircleD l1.length v ∈ (c2ContainerOf vals).descendants :=
    List.mem_of_find?_eq_some (by simpa [qsFirst] using hq)
  have hany : (c2ContainerOf vals).descendants.any (fun d => d.nid == 2 + l1.length) = true :=
    List.any_eq_true.mpr ⟨c2CircleD l1.length v, hmem, by simp [c2CircleD, DNode.nid]⟩
  simp [containsNode, hany]

/-- Precedence of the data-attribute strategy over the class strategy in
Phase 1: when the fast-accept and the ID strategy fall through and the
data-attribute strategy binds, that binding is the handle's final Phase-1
result — the class strategy is never consulted. -/
theorem phase1_data_before_class (ctx : P1Ctx) (store : RefStore) (r : Nat) (w : RVNode)
    (st' : RefStore) (hfa : phase1FastAccept ctx store r = false)
    (hid : phase1IdStage ctx store r w = .next)
    (hdata : phase1DataStage ctx store r w = .bind st') :
    phase1Step ctx store r w = st' := by
  simp [phase1Step, hfa, hid, hdata]

theorem phase1Step_c2 (vals l1 l2 : List String) (v : String) (hnd : vals.Nodup)
    (hsplit : vals = l1 ++ v :: l2) (store : RefStore)
    (hstore : ∀ j, getRef store j = if j < l1.length then some (2 + j) else none) :
    phase1Step ⟨c2ContainerOf vals, c2Pairs vals⟩ store l1.length (c2CircleV l1.length v) =
      setRef store l1.length (some (2 + l1.length)) := by
  have hs : getRef store l1.length = none := by
    rw [hstore]
    simp
  have hfa : phase1FastAccept ⟨c2ContainerOf vals, c2Pairs vals⟩ store l1.length = false := by
    simp [phase1FastAccept, hs]
  have hid : phase1IdStage ⟨c2ContainerOf vals, c2Pairs vals⟩ store l1.length
      (c2CircleV l1.length v) = .next := by
    have hpid : propId (c2CircleV l1.length v) = none := rfl
    simp [phase1IdStage, hpid]
  have heff : effType (c2CircleV l1.length v) = some ("circle") := rfl
  have hdp : dataSelectorPairs (c2CircleV l1.length v).props = [(("data-range"), v)] := rfl
  have hqs : qsFirst (c2ContainerOf vals)
      (matchesDataSel (effType (c2CircleV l1.length v))
        (dataSelectorPairs (c2CircleV l1.length v).props)) = some (c2CircleD l1.length v) := by
    rw [heff, hdp]
    exact c2_qsFirst vals l1 l2 v hnd hsplit
  have hcont : containsNode (c2ContainerOf vals) (c2CircleD l1.length v).nid = true := by
    simpa [c2CircleD, DNode.nid] using c2_contains vals l1 l2 v hnd hsplit
  have hassg : isAlreadyAssignedP1 ⟨c2ContainerOf vals, c2Pairs vals⟩ store l1.length
      (c2CircleD l1.length v) = false := by
    rw [Bool.eq_false_iff]
    intro hA
    simp only [isAlreadyAssignedP1] at hA
    rcases List.any_eq_true.mp hA with ⟨q, hq, hcond⟩
    rcases (Bool.and_eq_true _ _).mp hcond with ⟨hneq, hval⟩
    simp only [c2Pairs] at hq
    rcases List.mem_map.mp hq with ⟨pr, hpr, hqe⟩
    have hq1 : q.1 = pr.1 := by rw [← hqe]
    have hneq' : pr.1 ≠ l1.length := by
      intro hh
      rw [hq1, hh] at hneq
      simp at hneq
    rw [hq1, hstore pr.1] at hval
    by_cases hlt : pr.1 < l1.length
    · rw [if_pos hlt] at hval
      simp only [c2CircleD, DNode.nid] at hval
      have : 2 + pr.1 = 2 + l1.length := by simpa using hval
      omega
    · rw [if_neg hlt] at hval
      simp at hval
  have htag : tagOk (effType (c2CircleV l1.length v)) (c2CircleD l1.length v) = true := rfl
  have hdata : phase1DataStage ⟨c2ContainerOf vals, c2Pairs vals⟩ store l1.length
      (c2CircleV l1.length v) =
      .bind (setRef store l1.length (some (2 + l1.length))) := by
    rw [hdp] at hqs
    have hguard : ((none : Option Nat) != none) = false := rfl
    simp only [phase1DataStage]
    rw [hs]
    simp only [c2CircleD, DNode.nid] at htag hcont hassg
    simp [hguard, hdp, hqs, htag, hcont, hassg, c2CircleD, DNode.nid]
  exact phase1_data_before_class _ _ _ _ _ hfa hid hdata

theorem phase1_c2_aux (vals : List String) (hnd : vals.Nodup) :
    ∀ (l2 l1 : List String) (store : RefStore), vals = l1 ++ l2 →
    (∀ j, getRef store j = if j < l1.length then some (2 + j) else none) →
    ∀ j, getRef (((idxFrom l1.length l2).map (fun p => (p.1, c2CircleV p.1 p.2))).foldl
        (fun st q => phase1Step ⟨c2ContainerOf vals, c2Pairs vals⟩ st q.1 q.2) store) j =
      if j < vals.length then some (2 + j) else none := by
  intro l2
  induction l2 with
  | nil =>
    intro l1 store hsplit hstore j
    simp only [idxFrom, List.map_nil, List.foldl_nil]
    rw [hstore j, hsplit]
    simp
  | cons v vs ih =>
    intro l1 store hsplit hstore j
    simp only [idxFrom, List.map_cons, List.foldl_cons]
    have hstep := phase1Step_c2 vals l1 vs v hnd hsplit store hstore
    rw [hstep]
    have hlen2 : (l1 ++ [v]).length = l1.length + 1 := by simp
    have hstore' : ∀ k, getRef (setRef store l1.length (some (2 + l1.length))) k =
        if k < (l1 ++ [v]).length then some (2 + k) else none := by
      intro k
      rw [hlen2]
      by_cases hk : k = l1.length
      · subst hk
        rw [getRef_setRef_self]
        rw [if_pos (by omega)]
      · rw [getRef_setRef_ne _ _ _ _ hk, hstore k]
        by_cases hlt : k < l1.length
        · rw [if_pos hlt, if_pos (by omega)]
        · rw [if_neg hlt, if_neg (by omega)]
    have hsplit' : vals = (l1 ++ [v]) ++ vs := by
      rw [hsplit]
      simp
    have hres := ih (l1 ++ [v]) (setRef store l1.length (some (2 + l1.length))) hsplit' hstore' j
    rw [hlen2] at hres
    exact hres

/-- C2: for every family of `N` sibling `circle` elements sharing class
`ring` but each carrying a distinct `data-range` value (`vals`, pairwise
distinct), reconciliation binds handle `i` to the sibling whose
`data-range` attribute equals the handle's own declared value `vals[i]`
(Phase 1's data-attribute strategy makes the binding via the compound
selector, and Phase 2 preserves it); moreover the data-attribute strategy
is tried before the class strategy in Phase 1 — whenever it binds, its
binding is the handle's final Phase-1 result and the class strategy is
never consulted. -/
theorem recon_data_attribute_binding (fuel : Nat) (vals : List String) (hnd : vals.Nodup)
    (i : Nat) (hi : i < vals.length) :
    (getRef (renderReconcile fuel (c2TreeOf vals) (c2ContainerOf vals) []).refs i =
        some ((c2CircleD i (vals.get ⟨i, hi⟩)).nid) ∧
      getAttr (c2CircleD i (vals.get ⟨i, hi⟩)) (("data-range")) =
        some (vals.get ⟨i, hi⟩)) ∧
    (∀ (ctx : P1Ctx) (store : RefStore) (r : Nat) (w : RVNode) (st' : RefStore),
      phase1FastAccept ctx store r = false →
      phase1IdStage ctx store r w = .next →
      phase1DataStage ctx store r w = .bind st' →
      phase1Step ctx store r w = st') := by
  refine ⟨⟨?_, by simp [c2CircleD, getAttr]⟩, phase1_data_before_class⟩
  have hsplit : vals = vals.take i ++ vals.get ⟨i, hi⟩ :: vals.drop (i + 1) := by
    conv_lhs => rw [← List.take_append_drop i vals]
    rw [List.drop_eq_getElem_cons hi]
    rfl
  have hlen : (vals.take i).length = i := by
    rw [List.length_take]
    omega
  have hafter : ∀ j, getRef (phase1 (c2ContainerOf vals) (c2Pairs vals) []) j =
      if j < vals.length then some (2 + j) else none := by
    intro j
    have := phase1_c2_aux vals hnd vals [] [] (by simp) (by intro k; simp [getRef]) j
    simpa [phase1, c2Pairs, idxFrom] using this
  have hcont : containsNode (c2ContainerOf vals) (2 + i) = true := by
    have := c2_contains vals (vals.take i) (vals.drop (i + 1)) (vals.get ⟨i, hi⟩) hnd hsplit
    rwa [hlen] at this
  have hnid : (c2CircleD i (vals.get ⟨i, hi⟩)).nid = 2 + i := rfl
  rw [hnid]
  simp only [renderReconcile, collectRefs_c2]
  have hfec : firstElementChild (c2ContainerOf vals) =
      some (DNode.elem 1 ("svg") [] (c2Circles vals)) := rfl
  rw [hfec]
  exact reconcileRefs_preserves fuel _ _ _ _ i (2 + i)
    (by rw [hafter i, if_pos hi]) hcont

/-- Witness for `recon_data_attribute_binding`: the spec's Scenario A,
four circles with `data-range` values 25/50/100/200; handle 2 resolves to
the circle carrying `"100"`. -/
theorem recon_data_attribute_binding_witness :
    (["25", "50", "100", "200"] : List String).Nodup ∧
      getRef (renderReconcile 8 (c2TreeOf ["25", "50", "100", "200"])
          (c2ContainerOf ["25", "50", "100", "200"]) []).refs 2 =
        some ((c2CircleD 2 ("100")).nid) ∧
      getAttr (c2CircleD 2 ("100")) (("data-range")) = some ("100") :=
  ⟨by decide,
    ((recon_data_attribute_binding 8 ["25", "50", "100", "200"] (by decide) 2
      (by decide)).1).1,
    ((recon_data_attribute_binding 8 ["25", "50", "100", "200"] (by decide) 2
      (by decide)).1).2⟩

end Recon
